import Mathlib

/-!
Verification development for the AI document-orchestrator backend.

The JavaScript sources are shallowly embedded: strings are `List Char`,
JSON values (and JavaScript objects flowing through the service) are the
`Json` inductive below, fallible steps return `Except`/`Option`, and the
retry loop is a fuel-indexed recursion whose fuel is the configured
`maxAttempts`, exactly mirroring the `for` loop bounds of the source.
-/

/-- Whitespace predicate used both for `String.prototype.trim` and for the
whitespace accepted by `JSON.parse` (space, tab, LF, CR).  JavaScript's
`trim` also strips some exotic Unicode spaces; those are not modelled. -/
def isWs (c : Char) : Bool :=
  c = ' ' || c = '\t' || c = '\n' || c = '\r'

/-- The backtick character, written via its code point. -/
def btChar : Char := Char.ofNat 96

/-- The opening-brace character, written via its code point. -/
def obChar : Char := Char.ofNat 123

/-- The closing-brace character, written via its code point. -/
def cbChar : Char := Char.ofNat 125

/-- Model of `String.prototype.trim`: drop leading and trailing whitespace. -/
def jsTrim (l : List Char) : List Char :=
  ((l.dropWhile isWs).reverse.dropWhile isWs).reverse

/-- JSON values, doubling as the model of the JavaScript objects that flow
through the service (axios response bodies, message contents, parsed model
output).  Object fields are kept in insertion order. -/
inductive Json where
  | null : Json
  | bool (b : Bool) : Json
  | num (q : ℚ) : Json
  | str (s : List Char) : Json
  | arr (xs : List Json) : Json
  | obj (fields : List (List Char × Json)) : Json

/-- Field lookup on object field lists (first match wins, as JavaScript
object keys are unique). -/
def lookupField : List (List Char × Json) → List Char → Option Json
  | [], _ => none
  | (k, v) :: rest, key => if k = key then some v else lookupField rest key

/-- Model of JavaScript property access `o.k` (also `o?.k`): `none` plays
the role of `undefined`. -/
def jsGet : Json → List Char → Option Json
  | Json.obj fields, k => lookupField fields k
  | _, _ => none

/-- Model of JavaScript array indexing `a[i]` for array values. -/
def jsIdx : Json → Nat → Option Json
  | Json.arr xs, n => xs.get? n
  | _, _ => none

/-- JavaScript truthiness of a value: `null`, `false`, `0`, and the empty
string are falsy, everything else (including empty arrays and objects) is
truthy. -/
def jsTruthy : Json → Bool
  | Json.null => false
  | Json.bool b => b
  | Json.num q => decide (q ≠ 0)
  | Json.str s => !s.isEmpty
  | Json.arr _ => true
  | Json.obj _ => true

/-- Skip JSON whitespace. -/
def skipWs (l : List Char) : List Char := l.dropWhile isWs

def msgUnexpectedEnd : List Char := ("Unexpected end of JSON input").data

def msgUnexpectedToken : List Char := ("Unexpected token ").data

def msgBadNumber : List Char := ("Malformed number").data

def msgLeadingZero : List Char := ("Leading zero in number").data

def msgBadEscape : List Char := ("Bad escaped character").data

def msgFuel : List Char := ("Parser fuel exhausted").data

def msgTrailing : List Char := ("Unexpected non-whitespace character after JSON").data

def trueLit : List Char := ("true").data

def falseLit : List Char := ("false").data

def nullLit : List Char := ("null").data

/-- Strip an expected literal prefix, returning the remainder. -/
def stripLit : List Char → List Char → Option (List Char)
  | [], l => some l
  | c :: cs, d :: ds => if c = d then stripLit cs ds else none
  | _ :: _, [] => none

/-- Value of a hex digit, if any. -/
def hexVal (c : Char) : Option Nat :=
  if c.isDigit then some (c.toNat - 48)
  else if 'a' ≤ c ∧ c ≤ 'f' then some (c.toNat - 87)
  else if 'A' ≤ c ∧ c ≤ 'F' then some (c.toNat - 55)
  else none

/-- Parse the body of a JSON string literal (the opening quote already
consumed), handling the escape sequences accepted by `JSON.parse`. -/
def parseStringBody : List Char → Except (List Char) (List Char × List Char)
  | [] => Except.error msgUnexpectedEnd
  | '"' :: rest => Except.ok ([], rest)
  | '\\' :: rest =>
    match rest with
    | [] => Except.error msgUnexpectedEnd
    | e :: rest2 =>
      if e = '"' ∨ e = '\\' ∨ e = '/' then
        match parseStringBody rest2 with
        | Except.ok (s, r) => Except.ok (e :: s, r)
        | Except.error m => Except.error m
      else if e = 'b' ∨ e = 'f' ∨ e = 'n' ∨ e = 'r' ∨ e = 't' then
        let c : Char :=
          if e = 'b' then Char.ofNat 8 else if e = 'f' then Char.ofNat 12
          else if e = 'n' then '\n' else if e = 'r' then '\r' else '\t'
        match parseStringBody rest2 with
        | Except.ok (s, r) => Except.ok (c :: s, r)
        | Except.error m => Except.error m
      else if e = 'u' then
        match rest2 with
        | h1 :: h2 :: h3 :: h4 :: rest3 =>
          match hexVal h1, hexVal h2, hexVal h3, hexVal h4 with
          | some a, some b, some c, some d =>
            match parseStringBody rest3 with
            | Except.ok (s, r) =>
              Except.ok (Char.ofNat (((a * 16 + b) * 16 + c) * 16 + d) :: s, r)
            | Except.error m => Except.error m
          | _, _, _, _ => Except.error msgBadEscape
        | _ => Except.error msgUnexpectedEnd
      else Except.error msgBadEscape
  | c :: rest =>
    match parseStringBody rest with
    | Except.ok (s, r) => Except.ok (c :: s, r)
    | Except.error m => Except.error m

def digitVal (c : Char) : Nat := c.toNat - 48

def natOfDigits (ds : List Char) : Nat :=
  ds.foldl (fun a c => a * 10 + digitVal c) 0

/-- Ten to an integer power, as a rational. -/
def qPow10 (e : Int) : ℚ :=
  if 0 ≤ e then (10 : ℚ) ^ e.toNat else ((10 : ℚ) ^ (-e).toNat)⁻¹

/-- Parse the optional fraction part of a JSON number. -/
def parseFrac (l : List Char) : Except (List Char) (List Char × List Char) :=
  match l with
  | c :: rest =>
    if c = '.' then
      let ds := rest.takeWhile Char.isDigit
      if ds.isEmpty then Except.error msgBadNumber
      else Except.ok (ds, rest.dropWhile Char.isDigit)
    else Except.ok ([], l)
  | [] => Except.ok ([], l)

/-- Parse the optional exponent part of a JSON number. -/
def parseExp (l : List Char) : Except (List Char) (Int × List Char) :=
  match l with
  | c :: rest =>
    if c = 'e' ∨ c = 'E' then
      let (sgn, rest2) : Bool × List Char :=
        match rest with
        | s :: r2 => if s = '-' then (true, r2) else if s = '+' then (false, r2) else (false, rest)
        | [] => (false, rest)
      let ds := rest2.takeWhile Char.isDigit
      if ds.isEmpty then Except.error msgBadNumber
      else
        let e : Int := (natOfDigits ds : Int)
        Except.ok (if sgn then -e else e, rest2.dropWhile Char.isDigit)
    else Except.ok (0, l)
  | [] => Except.ok (0, l)

/-- Parse a JSON number (strict grammar: optional minus, no leading zeros,
optional fraction and exponent), producing a rational. -/
def parseNumber (l : List Char) : Except (List Char) (Json × List Char) :=
  let (neg, l1) : Bool × List Char :=
    match l with
    | c :: rest => if c = '-' then (true, rest) else (false, l)
    | [] => (false, l)
  match l1 with
  | [] => Except.error msgUnexpectedEnd
  | c :: _ =>
    if !c.isDigit then Except.error (msgUnexpectedToken ++ [c])
    else
      let intDs := l1.takeWhile Char.isDigit
      let l2 := l1.dropWhile Char.isDigit
      if (match intDs with | '0' :: _ :: _ => true | _ => false) then
        Except.error msgLeadingZero
      else
        match parseFrac l2 with
        | Except.error m => Except.error m
        | Except.ok (fracDs, l3) =>
          match parseExp l3 with
          | Except.error m => Except.error m
          | Except.ok (expVal, l4) =>
            let mant : ℚ :=
              (natOfDigits intDs : ℚ) + (natOfDigits fracDs : ℚ) / (10 : ℚ) ^ fracDs.length
            let q0 : ℚ := mant * qPow10 expVal
            Except.ok (Json.num (if neg then -q0 else q0), l4)

/-- Parser stack frames: an array or object under construction. -/
inductive PFrame where
  | fArr (acc : List Json)
  | fObj (acc : List (List Char × Json)) (key : List Char)

/-- Parser mode: about to read a value, or just finished one. -/
inductive PState where
  | needValue (l : List Char)
  | haveValue (v : Json) (l : List Char)

/-- The JSON parser proper, as a fuel-indexed stack machine.  One step of
`pRun` consumes at least one input character or pops one frame, so the fuel
chosen in `jsonParse` is always sufficient. -/
def pRun : Nat → List PFrame → PState → Except (List Char) (Json × List Char)
  | 0, _, _ => Except.error msgFuel
  | fuel + 1, st, PState.needValue l =>
    match skipWs l with
    | [] => Except.error msgUnexpectedEnd
    | c :: rest =>
      if c = obChar then
        match skipWs rest with
        | [] => Except.error msgUnexpectedEnd
        | c2 :: rest2 =>
          if c2 = cbChar then pRun fuel st (PState.haveValue (Json.obj []) rest2)
          else if c2 = '"' then
            match parseStringBody rest2 with
            | Except.error m => Except.error m
            | Except.ok (key, rest3) =>
              match skipWs rest3 with
              | ':' :: rest4 => pRun fuel (PFrame.fObj [] key :: st) (PState.needValue rest4)
              | c3 :: _ => Except.error (msgUnexpectedToken ++ [c3])
              | [] => Except.error msgUnexpectedEnd
          else Except.error (msgUnexpectedToken ++ [c2])
      else if c = '[' then
        match skipWs rest with
        | ']' :: rest2 => pRun fuel st (PState.haveValue (Json.arr []) rest2)
        | _ => pRun fuel (PFrame.fArr [] :: st) (PState.needValue rest)
      else if c = '"' then
        match parseStringBody rest with
        | Except.error m => Except.error m
        | Except.ok (s, rest2) => pRun fuel st (PState.haveValue (Json.str s) rest2)
      else if c = 't' then
        match stripLit trueLit (c :: rest) with
        | some rest2 => pRun fuel st (PState.haveValue (Json.bool true) rest2)
        | none => Except.error (msgUnexpectedToken ++ [c])
      else if c = 'f' then
        match stripLit falseLit (c :: rest) with
        | some rest2 => pRun fuel st (PState.haveValue (Json.bool false) rest2)
        | none => Except.error (msgUnexpectedToken ++ [c])
      else if c = 'n' then
        match stripLit nullLit (c :: rest) with
        | some rest2 => pRun fuel st (PState.haveValue Json.null rest2)
        | none => Except.error (msgUnexpectedToken ++ [c])
      else if c = '-' ∨ c.isDigit then
        match parseNumber (c :: rest) with
        | Except.error m => Except.error m
        | Except.ok (v, rest2) => pRun fuel st (PState.haveValue v rest2)
      else Except.error (msgUnexpectedToken ++ [c])
  | fuel + 1, st, PState.haveValue v l =>
    match st with
    | [] => Except.ok (v, l)
    | PFrame.fArr acc :: st2 =>
      match skipWs l with
      | ',' :: rest => pRun fuel (PFrame.fArr (acc ++ [v]) :: st2) (PState.needValue rest)
      | ']' :: rest => pRun fuel st2 (PState.haveValue (Json.arr (acc ++ [v])) rest)
      | c :: _ => Except.error (msgUnexpectedToken ++ [c])
      | [] => Except.error msgUnexpectedEnd
    | PFrame.fObj acc key :: st2 =>
      match skipWs l with
      | ',' :: rest =>
        match skipWs rest with
        | '"' :: rest2 =>
          match parseStringBody rest2 with
          | Except.error m => Except.error m
          | Except.ok (key2, rest3) =>
            match skipWs rest3 with
            | ':' :: rest4 =>
              pRun fuel (PFrame.fObj (acc ++ [(key, v)]) key2 :: st2) (PState.needValue rest4)
            | c3 :: _ => Except.error (msgUnexpectedToken ++ [c3])
            | [] => Except.error msgUnexpectedEnd
        | c2 :: _ => Except.error (msgUnexpectedToken ++ [c2])
        | [] => Except.error msgUnexpectedEnd
      | c :: rest =>
        if c = cbChar then pRun fuel st2 (PState.haveValue (Json.obj (acc ++ [(key, v)])) rest)
        else Except.error (msgUnexpectedToken ++ [c])
      | [] => Except.error msgUnexpectedEnd

/-- Model of `JSON.parse`: parse one value and require only whitespace to
follow. -/
def jsonParse (l : List Char) : Except (List Char) Json :=
  match pRun (4 * l.length + 4) [] (PState.needValue l) with
  | Except.error m => Except.error m
  | Except.ok (v, rest) =>
    if (skipWs rest).isEmpty then Except.ok v else Except.error msgTrailing

/-- Render an integer in decimal. -/
def intRender (n : Int) : List Char :=
  if n < 0 then '-' :: (Nat.repr (-n).toNat).data else (Nat.repr n.toNat).data

/-- Render a rational.  JavaScript float formatting is not reproduced
digit-for-digit; integers render exactly, other rationals render as
`num/den`.  No claim depends on the rendering of non-integers. -/
def renderNum (q : ℚ) : List Char :=
  if q.den = 1 then intRender q.num
  else intRender q.num ++ '/' :: (Nat.repr q.den).data

/-- Join pieces with commas (the JavaScript `Array.prototype.join`). -/
def joinComma : List (List Char) → List Char
  | [] => []
  | [x] => x
  | x :: y :: rest => x ++ ',' :: joinComma (y :: rest)

/-- Escape one character for a JSON string literal. -/
def escCh (c : Char) : List Char :=
  if c = '"' ∨ c = '\\' then ['\\', c]
  else if c = '\n' then ['\\', 'n']
  else if c = '\r' then ['\\', 'r']
  else if c = '\t' then ['\\', 't']
  else [c]

/-- Escape a string body for JSON output. -/
def escStr (s : List Char) : List Char := (s.map escCh).flatten

mutual

/-- Model of `JSON.stringify` (no spacing argument). -/
def jsonStringify : Json → List Char
  | Json.null => nullLit
  | Json.bool true => trueLit
  | Json.bool false => falseLit
  | Json.num q => renderNum q
  | Json.str s => '"' :: escStr s ++ ['"']
  | Json.arr xs => '[' :: joinComma (jsonStringifyList xs) ++ [']']
  | Json.obj fs => obChar :: joinComma (jsonStringifyFields fs) ++ [cbChar]

/-- Serialize array elements. -/
def jsonStringifyList : List Json → List (List Char)
  | [] => []
  | x :: xs => jsonStringify x :: jsonStringifyList xs

/-- Serialize object fields. -/
def jsonStringifyFields : List (List Char × Json) → List (List Char)
  | [] => []
  | (k, v) :: fs => ('"' :: escStr k ++ '"' :: ':' :: jsonStringify v) :: jsonStringifyFields fs

end

mutual

/-- Model of the JavaScript `String(...)` coercion for the values the
service can produce.  Array elements that are `null` render empty, as in
JavaScript's `Array.prototype.toString`. -/
def jsStringCoerce : Json → List Char
  | Json.null => nullLit
  | Json.bool true => trueLit
  | Json.bool false => falseLit
  | Json.num q => renderNum q
  | Json.str s => s
  | Json.arr xs => joinComma (jsStringCoerceList xs)
  | Json.obj _ => ("[object Object]").data

/-- Coerce array elements for joining, rendering `null` elements empty. -/
def jsStringCoerceList : List Json → List (List Char)
  | [] => []
  | Json.null :: xs => [] :: jsStringCoerceList xs
  | x :: xs => jsStringCoerce x :: jsStringCoerceList xs

end

/-- Does the text begin with a triple-backtick fence?  Mirrors
`cleanJsonStr.startsWith(三backticks)`. -/
def fenceStart : List Char → Bool
  | a :: b :: c :: _ => a = btChar && b = btChar && c = btChar
  | _ => false

/-- Does the text end with a triple-backtick fence? -/
def fenceEnd (l : List Char) : Bool := fenceStart l.reverse

def jsonTagLower : List Char := ("json").data

/-- Case-insensitive check for a `json` language tag right after the
opening fence. -/
def jsonTagPrefix (l : List Char) : Bool := ((l.take 4).map Char.toLower) = jsonTagLower

/-- Strip the code fence, mirroring
`replace(/^(fence)(json)?/i, ...).replace(/(fence)$/, ...)` of the source:
drop the three opening backticks, an optional case-insensitive `json` tag,
and three closing backticks when present. -/
def stripFence (l : List Char) : List Char :=
  let l1 := l.drop 3
  let l2 := if jsonTagPrefix l1 then l1.drop 4 else l1
  if fenceEnd l2 then l2.take (l2.length - 3) else l2

/-- Substring from the first opening brace through the last closing brace,
mirroring the greedy regex match of the source; `none` when the regex
fails to match. -/
def braceSubstring (l : List Char) : Option (List Char) :=
  let l1 := l.dropWhile fun c => c ≠ obChar
  let l2 := (l1.reverse.dropWhile fun c => c ≠ cbChar).reverse
  if l2.isEmpty then none else some l2

/-- The error object raised when the model output cannot be recovered as
JSON.  The source sets exactly two data fields: `e.raw = textOut` and
`e.parseError = parseErr.message` (the direct-parse failure message). -/
structure ParseErr where
  raw : List Char
  parseError : List Char
deriving DecidableEq

/-- The cleaning prefix of the JSON-recovery step: trim the model output
and strip a leading code fence when present. -/
def recoverClean (textOut : List Char) : List Char :=
  let clean0 := jsTrim textOut
  if fenceStart clean0 then stripFence clean0 else clean0

/-- The JSON-recovery step of `extractStructuredJSON` (primary variant,
`src/services/aiService.js`): trim, strip a leading fence, attempt a
direct parse, fall back to the first-brace/last-brace substring, and
otherwise raise an error carrying the original text and the direct parse
failure message (the substring parse failure is discarded by the
source's empty `catch`). -/
def jsRecover (textOut : List Char) : Except ParseErr Json :=
  let clean := recoverClean textOut
  match jsonParse clean with
  | Except.ok v => Except.ok v
  | Except.error m1 =>
    match braceSubstring clean with
    | some sub =>
      match jsonParse sub with
      | Except.ok v => Except.ok v
      | Except.error _ => Except.error ⟨textOut, m1⟩
    | none => Except.error ⟨textOut, m1⟩

def choicesKey : List Char := ("choices").data

def messageKey : List Char := ("message").data

def contentKey : List Char := ("content").data

def textKey : List Char := ("text").data

def deltaKey : List Char := ("delta").data

def outputKey : List Char := ("output").data

def outputTextKey : List Char := ("output_text").data

/-- The `data.output_text` tail of the primary extractor:
`if (data.output_text) return data.output_text; return null;`. -/
def fallbackOutputText (d : Json) : Option Json :=
  match jsGet d outputTextKey with
  | some o => if jsTruthy o then some o else none
  | none => none

/-- Primary `extractTextFromResponseData` (`src/services/aiService.js`
lines 67-80): return `data.choices?.[0]?.message?.content` when truthy,
else `data.output_text` when truthy, else `null`.  The returned content is
whatever value sits in the field — possibly a non-string.  Array indexing
is modelled for array values (the only shapes the service meets). -/
def extractTextFromResponseData (data : Option Json) : Option Json :=
  match data with
  | none => none
  | some d =>
    if !(jsTruthy d) then none
    else
      let contentOpt : Option Json :=
        match jsGet d choicesKey with
        | some chs =>
          match jsIdx chs 0 with
          | some ch0 =>
            match jsGet ch0 messageKey with
            | some msg => jsGet msg contentKey
            | none => none
          | none => none
        | none => none
      match contentOpt with
      | some c => if jsTruthy c then some c else fallbackOutputText d
      | none => fallbackOutputText d

/-- `typeof x === 'string' && x.trim()`: the value when it is a string
with non-blank trim. -/
def strIfTrim : Option Json → Option (List Char)
  | some (Json.str s) => if (jsTrim s).isEmpty then none else some s
  | _ => none

/-- The `for (const item of msg.content)` loop of the second extractor
variant: first entry that is a non-blank string, or has a non-blank string
`text` field, or a non-blank string `content` field; falsy entries are
skipped. -/
def firstContentItem : List Json → Option (List Char)
  | [] => none
  | item :: rest =>
    if !(jsTruthy item) then firstContentItem rest
    else
      match item with
      | Json.str s =>
        if (jsTrim s).isEmpty then
          match strIfTrim (jsGet item textKey) with
          | some t => some t
          | none =>
            match strIfTrim (jsGet item contentKey) with
            | some t => some t
            | none => firstContentItem rest
        else some s
      | _ =>
        match strIfTrim (jsGet item textKey) with
        | some t => some t
        | none =>
          match strIfTrim (jsGet item contentKey) with
          | some t => some t
          | none => firstContentItem rest

/-- The inner `for (const c of out.content)` loop of the second extractor
variant. -/
def firstOutputInner : List Json → Option (List Char)
  | [] => none
  | c :: rest =>
    if !(jsTruthy c) then firstOutputInner rest
    else
      match strIfTrim (jsGet c textKey) with
      | some t => some t
      | none =>
        match c with
        | Json.str s => if (jsTrim s).isEmpty then firstOutputInner rest else some s
        | _ => firstOutputInner rest

/-- The outer `for (const out of data.output)` loop of the second
extractor variant. -/
def firstOutputItem : List Json → Option (List Char)
  | [] => none
  | out :: rest =>
    if !(jsTruthy out) then firstOutputItem rest
    else
      match strIfTrim (jsGet out contentKey) with
      | some t => some t
      | none =>
        match jsGet out contentKey with
        | some (Json.arr cs) =>
          match firstOutputInner cs with
          | some t => some t
          | none => firstOutputItem rest
        | _ => firstOutputItem rest

/-- `msg.content` handling of the second extractor variant: a non-blank
string is returned as-is, a non-empty array is scanned for a text-bearing
part. -/
def v2FromMsg (msg : Json) : Option (List Char) :=
  match jsGet msg contentKey with
  | some (Json.str s) => if (jsTrim s).isEmpty then none else some s
  | some (Json.arr items) => if items.isEmpty then none else firstContentItem items
  | _ => none

/-- `choice.delta?.content` handling of the second extractor variant. -/
def v2Delta (choice : Json) : Option (List Char) :=
  let dc : Option Json :=
    match jsGet choice deltaKey with
    | some dl => jsGet dl contentKey
    | none => none
  match dc with
  | some v =>
    if jsTruthy v then
      match v with
      | Json.str s => if (jsTrim s).isEmpty then none else some s
      | _ => none
    else none
  | none => none

/-- Per-choice handling of the second extractor variant: message content,
then legacy `choice.text`, then streaming delta. -/
def v2FromChoice (choice : Json) : Option (List Char) :=
  let fromMsg : Option (List Char) :=
    match jsGet choice messageKey with
    | some msg => if jsTruthy msg then v2FromMsg msg else none
    | none => none
  match fromMsg with
  | some s => some s
  | none =>
    match strIfTrim (jsGet choice textKey) with
    | some s => some s
    | none => v2Delta choice

/-- Second `extractTextFromResponseData` variant
(`src/services/aiService.js` lines 354-407): the multi-shape extractor
with a `JSON.stringify` fallback. -/
def extractTextFromResponseDataV2 (data : Option Json) : Option (List Char) :=
  match data with
  | none => none
  | some d =>
    if !(jsTruthy d) then none
    else
      let step1 : Option (List Char) :=
        match (match jsGet d choicesKey with
               | some chs => jsIdx chs 0
               | none => none) with
        | some choice => if jsTruthy choice then v2FromChoice choice else none
        | none => none
      match step1 with
      | some s => some s
      | none =>
        let step2 : Option (List Char) :=
          match jsGet d outputKey with
          | some (Json.arr outs) => if outs.isEmpty then none else firstOutputItem outs
          | _ => none
        match step2 with
        | some s => some s
        | none =>
          match strIfTrim (jsGet d outputTextKey) with
          | some s => some s
          | none =>
            let joined := jsonStringify d
            if joined.isEmpty then none else some joined

/-- The value found under the `retry-after` response header, abstracting
the JavaScript string parsing dispatch: `missing` models an absent (or
empty, hence falsy) header; `numeric s` a header string for which
`Number(header)` yields the finite number `s` (restricted to integers;
e.g. the header text `-5` yields `numeric (-5)`); `httpDate d` a header
accepted by `Date.parse`, with `d` the signed difference
`t - Date.now()` in milliseconds at the moment of parsing; `unparsable`
anything else. -/
inductive RetryAfterHeader where
  | missing
  | numeric (seconds : Int)
  | httpDate (deltaMs : Int)
  | unparsable
deriving DecidableEq

/-- `parseRetryAfter` of `src/services/aiService.js`: `null` for a falsy
header, `Number(header) * 1000` when numeric, `max(0, t - Date.now())`
for an HTTP date, `null` otherwise. -/
def parseRetryAfter : RetryAfterHeader → Option Int
  | RetryAfterHeader.missing => none
  | RetryAfterHeader.numeric s => some (s * 1000)
  | RetryAfterHeader.httpDate d => some (max 0 d)
  | RetryAfterHeader.unparsable => none

/-- Upstream response headers, reduced to the single header consulted by
the retry loop.  The field models the combined lookup
`headers[lowercase] || headers[uppercase]`. -/
structure HeadersInfo where
  retryAfter : RetryAfterHeader
deriving DecidableEq

/-- The `response` part of an axios error: upstream status, headers and
body when an HTTP response was received. -/
structure RespInfo where
  status : Option Nat
  headers : HeadersInfo
  data : Option Json

/-- A transport-level error thrown by the `fn` callable: an axios error
object.  `statusField` models a top-level `err.status` property. -/
structure FailInfo where
  message : List Char
  response : Option RespInfo
  statusField : Option Nat

/-- `err?.response?.status ?? err?.status`. -/
def effStatus (e : FailInfo) : Option Nat :=
  match e.response with
  | some r =>
    match r.status with
    | some s => some s
    | none => e.statusField
  | none => e.statusField

/-- `err?.response?.headers ?? an empty object`. -/
def effHeaders (e : FailInfo) : HeadersInfo :=
  match e.response with
  | some r => r.headers
  | none => ⟨RetryAfterHeader.missing⟩

/-- `err?.response?.data`. -/
def effBody (e : FailInfo) : Option Json :=
  match e.response with
  | some r => r.data
  | none => none

/-- The retry classification
`!status || status === 429 || (status >= 500 && status < 600)`.  Note the
JavaScript truthiness test: a *present* status of `0` is falsy and hence
also retryable. -/
def jsShouldRetry (s : Option Nat) : Bool :=
  match s with
  | none => true
  | some n => n = 0 || n = 429 || (decide (500 ≤ n) && decide (n < 600))

/-- The retry options of `callWithRetry`
(`maxAttempts`, `baseDelayMs`, `maxDelayMs`). -/
structure RetryPolicy where
  maxAttempts : Nat
  baseDelayMs : Nat
  maxDelayMs : Nat
deriving DecidableEq

/-- The wait computed before a scheduled retry, lines 52-59 of the
source: prefer a parsed `Retry-After` header capped by `maxDelayMs`
(`Math.min` only — no lower clamp); otherwise full-jitter backoff
`Math.floor(Math.random() * Math.min(maxDelayMs, baseDelayMs * 2^(attempt-1)))`,
with the random draw `j ∈ [0,1)` passed explicitly. -/
def computeWait (pol : RetryPolicy) (attempt : Nat) (j : ℚ) (h : RetryAfterHeader) : Int :=
  match parseRetryAfter h with
  | some w => min w (pol.maxDelayMs : Int)
  | none =>
    let cap : Nat := min pol.maxDelayMs (pol.baseDelayMs * 2 ^ (attempt - 1))
    Int.floor (j * (cap : ℚ))

/-- Outcome of one execution of the `fn` callable: a resolved value or a
thrown transport error. -/
inductive Outcome (α : Type) where
  | success (v : α)
  | failure (e : FailInfo)

/-- The enriched error thrown by `callWithRetry` (primary variant): the
message embeds the attempt number and the original message, and the
source attaches `original`, `status` and `responseBody` — and nothing
else, so `headers` is `none` (JavaScript `undefined`). -/
structure EnrichedError where
  attempt : Nat
  origMessage : List Char
  status : Option Nat
  responseBody : Option Json
  headers : Option HeadersInfo
  original : FailInfo

/-- Build the enriched error exactly as lines 45-49 of the source do. -/
def enrich (attempt : Nat) (e : FailInfo) : EnrichedError :=
  ⟨attempt, e.message, effStatus e, effBody e, none, e⟩

/-- Terminal outcome of a `callWithRetry` run.  `undef` models the
JavaScript `undefined` returned when the loop body never runs
(`maxAttempts = 0`). -/
inductive RunOutcome (α : Type) where
  | ok (v : α)
  | err (e : EnrichedError)
  | undef

/-- Result of a `callWithRetry` run: its terminal outcome, the number of
`fn` calls executed, and the list of waits (in ms) slept before each
retry, in order. -/
structure RunResult (α : Type) where
  attemptsUsed : Nat
  waits : List Int
  outcome : RunOutcome α

/-- The attempt loop of `callWithRetry`, recursing on the number of
remaining loop iterations (`remaining = maxAttempts - attempt + 1`);
`attempt === maxAttempts` corresponds to `remaining = 1`.  The behaviour
of the callable is a function from attempt number to outcome, and the
jitter draws are a function from attempt number to `[0,1)`. -/
def callWithRetryAux (pol : RetryPolicy) (fn : Nat → Outcome α) (jit : Nat → ℚ) :
    Nat → Nat → RunResult α
  | _, 0 => ⟨0, [], RunOutcome.undef⟩
  | attempt, remaining + 1 =>
    match fn attempt with
    | Outcome.success v => ⟨1, [], RunOutcome.ok v⟩
    | Outcome.failure e =>
      if jsShouldRetry (effStatus e) && remaining != 0 then
        let w := computeWait pol attempt (jit attempt) (effHeaders e).retryAfter
        let r := callWithRetryAux pol fn jit (attempt + 1) remaining
        ⟨r.attemptsUsed + 1, w :: r.waits, r.outcome⟩
      else ⟨1, [], RunOutcome.err (enrich attempt e)⟩

/-- `callWithRetry` of `src/services/aiService.js`: run the attempt loop
from attempt 1 with `maxAttempts` iterations available. -/
def callWithRetry (pol : RetryPolicy) (fn : Nat → Outcome α) (jit : Nat → ℚ) : RunResult α :=
  callWithRetryAux pol fn jit 1 pol.maxAttempts

/-- Callable behaviour made of a finite prefix of failures followed by
unbounded successes: call number `n` (1-based) throws `fails[n-1]` while
that exists and resolves with `v` afterwards. -/
def fnOf (fails : List FailInfo) (v : α) (n : Nat) : Outcome α :=
  match fails.get? (n - 1) with
  | some e => Outcome.failure e
  | none => Outcome.success v

def summaryKey : List Char := ("summary").data

def keyPairsKey : List Char := ("key_pairs").data

def confidenceKey : List Char := ("confidence").data

def keyKey : List Char := ("key").data

def valueKey : List Char := ("value").data

def reasonKey : List Char := ("reason").data

/-- Success value of `extractStructuredJSON`:
`{ success: true, structuredJson, raw }`. -/
structure AISuccess where
  structuredJson : Json
  raw : List Char

/-- The errors `extractStructuredJSON` (primary variant) can throw:
missing API key, the enriched transport error, the two no-output /
non-string-output failures, and the unparsable-output error. -/
inductive AIErr where
  | noApiKey
  | transport (e : EnrichedError)
  | noOutput (data : Option Json)
  | trimTypeError (tv : Json)
  | notValidJson (e : ParseErr)

/-- The output-processing tail of `extractStructuredJSON` (primary
variant, lines 133-163): extract text, reject null/blank output, and
recover structured JSON.  A truthy non-string `textOut` (possible for an
array-valued message content) makes `textOut.trim()` throw a `TypeError`
in the source; this is the `trimTypeError` case. -/
def processModelOutput (data : Option Json) : Except AIErr AISuccess :=
  match extractTextFromResponseData data with
  | none => Except.error (AIErr.noOutput data)
  | some tv =>
    if (jsTrim (jsStringCoerce tv)).isEmpty then Except.error (AIErr.noOutput data)
    else
      match tv with
      | Json.str s =>
        match jsRecover s with
        | Except.ok v => Except.ok ⟨v, s⟩
        | Except.error pe => Except.error (AIErr.notValidJson pe)
      | _ => Except.error (AIErr.trimTypeError tv)

/-- `extractStructuredJSON` (primary variant), with the transport call
abstracted by the result of its `callWithRetry` run: the success value of
the run is `resp?.data`. -/
def extractStructuredJSON (apiKeySet : Bool) (run : RunResult (Option Json)) :
    Except AIErr AISuccess :=
  if !apiKeySet then Except.error AIErr.noApiKey
  else
    match run.outcome with
    | RunOutcome.err en => Except.error (AIErr.transport en)
    | RunOutcome.ok data => processModelOutput data
    | RunOutcome.undef => processModelOutput none

/-- One `key_pairs` element of the expected shape: an object carrying
`key`, `value` and `reason` fields. -/
def isKVR (j : Json) : Bool :=
  (jsGet j keyKey).isSome && (jsGet j valueKey).isSome && (jsGet j reasonKey).isSome

/-- Modelled from the spec (the expected `structuredPayload` shape, §3 of
the specification): `summary` a non-empty string, `key_pairs` a sequence
of `\x7bkey, value, reason\x7d` objects, `confidence` a number in `[0,1]`.
The source contains no such validation; this definition exists to compare
the spec's words against what the code returns. -/
def specExpectedShape (j : Json) : Bool :=
  match jsGet j summaryKey, jsGet j keyPairsKey, jsGet j confidenceKey with
  | some (Json.str s), some (Json.arr kps), some (Json.num c) =>
    !s.isEmpty && kps.all isKVR && decide ((0 : ℚ) ≤ c) && decide (c ≤ 1)
  | _, _, _ => false

/-- Queue configuration (`concurrency`, `intervalCap`, `interval`). -/
structure QueueConfig where
  concurrency : Nat
  intervalCap : Nat
  intervalMs : Nat
deriving DecidableEq

/-- Modelled from the spec: the state of the rate-limited request queue
(`p-queue`, whose implementation is not part of this repository's
sources).  §4.1 of the specification: counters for running tasks and for
starts in the current fixed window, a FIFO pending list, plus ghost
history (submitted ids, admitted ids, start timestamps) for stating the
invariants. -/
structure QState where
  now : Nat
  pending : List Nat
  running : Nat
  submitted : List Nat
  startedIds : List Nat
  startTimes : List Nat
  startedInWindow : Nat
deriving DecidableEq

/-- The empty initial queue state at time zero. -/
def qInit : QState := ⟨0, [], 0, [], [], [], 0⟩

/-- Events of the queue model: submitting a task, attempting an
admission, a running task completing, and one millisecond of time
passing. -/
inductive QAction where
  | submit (id : Nat)
  | beginTask
  | complete
  | tick
deriving DecidableEq

/-- Modelled from the spec: one transition of the queue (§4.1).  A task
is admitted only when fewer than `concurrency` tasks run and fewer than
`intervalCap` tasks started in the current window; the window is fixed,
resetting whenever the clock reaches a multiple of `intervalMs`, at which
point the start count returns to zero.  Guarded events that cannot fire
leave the state unchanged. -/
def qStep (cfg : QueueConfig) (s : QState) : QAction → QState
  | QAction.submit id =>
    { s with pending := s.pending ++ [id], submitted := s.submitted ++ [id] }
  | QAction.beginTask =>
    match s.pending with
    | [] => s
    | id :: rest =>
      if s.running < cfg.concurrency ∧ s.startedInWindow < cfg.intervalCap then
        { s with pending := rest, running := s.running + 1,
                 startedIds := s.startedIds ++ [id],
                 startTimes := s.startTimes ++ [s.now],
                 startedInWindow := s.startedInWindow + 1 }
      else s
  | QAction.complete =>
    if s.running = 0 then s else { s with running := s.running - 1 }
  | QAction.tick =>
    let t := s.now + 1
    { s with now := t,
             startedInWindow := if t % cfg.intervalMs = 0 then 0 else s.startedInWindow }

/-- Run the queue from the initial state over a list of events. -/
def qRun (cfg : QueueConfig) (acts : List QAction) : QState :=
  acts.foldl (qStep cfg) qInit

/-- Number of recorded starts falling in the `k`-th fixed window. -/
def countInWindow (cfg : QueueConfig) (k : Nat) (ts : List Nat) : Nat :=
  ts.countP fun t => decide (k * cfg.intervalMs ≤ t) && decide (t < (k + 1) * cfg.intervalMs)

/-- Number of recorded starts falling in the sliding window `[a, a+len)`. -/
def countInSpan (a len : Nat) (ts : List Nat) : Nat :=
  ts.countP fun t => decide (a ≤ t) && decide (t < a + len)

/-- The uploaded file's metadata used by the `/process` route. -/
structure FileInfo where
  originalname : List Char
  size : Nat

/-- A thrown JavaScript error as seen by the route handler: its message
plus whatever enrichment fields the thrower attached. -/
structure JsError where
  message : List Char
  status : Option Nat
  responseBody : Option Json

/-- `sendToN8N` of `src/services/n8nService.js`: warns and returns when
unconfigured, posts and swallows any axios failure in its own
`try/catch` — it never throws, whatever the post outcome. -/
def sendToN8N (cfgd : Bool) (postResult : Except JsError Unit) : Unit :=
  match cfgd, postResult with
  | false, _ => ()
  | true, Except.ok _ => ()
  | true, Except.error _ => ()

/-- Response bodies produced by `POST /api/process`. -/
inductive RouteBody where
  | fileRequired
  | serverError (details : List Char)
  | processed (text : List Char) (structuredJson : AISuccess)

/-- An HTTP response: status code and JSON body. -/
structure HttpResponse where
  status : Nat
  body : RouteBody

/-- The `POST /api/process` handler (`src/routes/upload.js`), with the
awaited stages abstracted by their outcomes: reject a missing file with
400, run PDF extraction, the AI call and the n8n forward inside one
`try`, and map any thrown error to
`500 \x7b error: 'Server error', details: err.message \x7d`. -/
def processHandler (file : Option FileInfo) (pdfRes : Except JsError (List Char))
    (aiRes : Except JsError AISuccess) (n8nConfigured : Bool)
    (n8nPost : Except JsError Unit) : HttpResponse :=
  match file with
  | none => ⟨400, RouteBody.fileRequired⟩
  | some _ =>
    match pdfRes with
    | Except.error e => ⟨500, RouteBody.serverError e.message⟩
    | Except.ok text =>
      match aiRes with
      | Except.error e => ⟨500, RouteBody.serverError e.message⟩
      | Except.ok sj =>
        match sendToN8N n8nConfigured n8nPost with
        | () => ⟨200, RouteBody.processed text sj⟩

def xText : List Char := ("x").data

/-- Response shape 1: `choices[0].message.content` a plain string. -/
def shape1J : Json :=
  Json.obj [(choicesKey, Json.arr [Json.obj
    [(messageKey, Json.obj [(contentKey, Json.str xText)])]])]

/-- Response shape 2: `choices[0].message.content` an array of parts. -/
def shape2J : Json :=
  Json.obj [(choicesKey, Json.arr [Json.obj
    [(messageKey, Json.obj [(contentKey,
      Json.arr [Json.obj [(textKey, Json.str xText)]])])]])]

/-- Response shape 3: legacy `choices[0].text`. -/
def shape3J : Json :=
  Json.obj [(choicesKey, Json.arr [Json.obj [(textKey, Json.str xText)]])]

/-- Response shape 4: top-level `output_text`. -/
def shape4J : Json :=
  Json.obj [(outputTextKey, Json.str xText)]

/-- Response shape 5: provider-native `output[0].content`. -/
def shape5J : Json :=
  Json.obj [(outputKey, Json.arr [Json.obj [(contentKey, Json.str xText)]])]

/-- C6 (counterexample): the claim asserts `extractTextFromResponseData`
returns non-null text for the legacy shape `choices:[ text:"x" ]`, but
the primary variant (`src/services/aiService.js` lines 67-80) only
consults `choices[0].message.content` and `output_text`, so it returns
`null` on that shape. -/
theorem extractText_primary_choicesText_null :
    extractTextFromResponseData (some shape3J) = none := rfl

/-- C6 (amended): the second `extractTextFromResponseData` variant
(lines 354-407) returns the non-null text `x` for all five response
shapes and `null` for a null/undefined body; the primary variant returns
`null` for the legacy-text and output-array shapes and returns the raw
content value (a non-string array) for the array-content shape. -/
theorem extractTextFromResponseData_shape_behavior :
    extractTextFromResponseDataV2 (some shape1J) = some xText ∧
    extractTextFromResponseDataV2 (some shape2J) = some xText ∧
    extractTextFromResponseDataV2 (some shape3J) = some xText ∧
    extractTextFromResponseDataV2 (some shape4J) = some xText ∧
    extractTextFromResponseDataV2 (some shape5J) = some xText ∧
    extractTextFromResponseDataV2 none = none ∧
    extractTextFromResponseData (some shape1J) = some (Json.str xText) ∧
    extractTextFromResponseData (some shape2J) =
      some (Json.arr [Json.obj [(textKey, Json.str xText)]]) ∧
    extractTextFromResponseData (some shape3J) = none ∧
    extractTextFromResponseData (some shape4J) = some (Json.str xText) ∧
    extractTextFromResponseData (some shape5J) = none ∧
    extractTextFromResponseData none = none :=
  ⟨rfl, rfl, rfl, rfl, rfl, rfl, rfl, rfl, rfl, rfl, rfl, rfl⟩

/-- C10 (confirmed): every error thrown inside the `POST /api/process`
`try` block after a file was supplied — from PDF extraction or from the
AI invocation (the n8n forwarder cannot throw, see `sendToN8N`) — yields
status 500 with body `error: 'Server error', details: err.message`,
regardless of the error's kind or attached upstream status. -/
theorem processHandler_catch_500 (f : FileInfo) (pdfRes : Except JsError (List Char))
    (aiRes : Except JsError AISuccess) (cfgd : Bool) (npost : Except JsError Unit)
    (e : JsError)
    (h : pdfRes = Except.error e ∨ ∃ t, pdfRes = Except.ok t ∧ aiRes = Except.error e) :
    processHandler (some f) pdfRes aiRes cfgd npost = ⟨500, RouteBody.serverError e.message⟩ := by
  rcases h with h | ⟨t, hp, ha⟩
  · subst h; rfl
  · subst hp; subst ha; rfl

def sampleFile : FileInfo := ⟨("doc.pdf").data, 3⟩

def sampleText : List Char := ("Invoice #123, total $450").data

def err401 : JsError := ⟨("Gemini request failed (attempt 1)").data, some 401, none⟩

/-- C10 witness: a concrete upstream-401 failure of the AI stage maps to
the uniform 500 response. -/
theorem processHandler_catch_500_witness :
    processHandler (some sampleFile) (Except.ok sampleText)
      (Except.error err401) true (Except.ok ()) =
      ⟨500, RouteBody.serverError err401.message⟩ :=
  processHandler_catch_500 sampleFile (Except.ok sampleText) (Except.error err401)
    true (Except.ok ()) err401 (Or.inr ⟨sampleText, rfl, rfl⟩)

def jit0 : Nat → ℚ := fun _ => 0

def noHeaders : HeadersInfo := ⟨RetryAfterHeader.missing⟩

def failZero : FailInfo :=
  ⟨("Request failed with status code 0").data, some ⟨some 0, noHeaders, none⟩, none⟩

def pol2 : RetryPolicy := ⟨2, 1000, 30000⟩

/-- C2 (counterexample): a failure whose status is present but equal to
`0` is *retryable* in the source (`!status` is true for `0`), so with
`maxAttempts = 2` and a second call succeeding, `callWithRetry` executes
two attempts and returns the success — it does not propagate an error on
attempt 1 as the claim requires for a present status outside
`429`/`[500,599]`. -/
theorem callWithRetry_statusZero_retries :
    (callWithRetry pol2 (fnOf [failZero] true) jit0).attemptsUsed = 2 ∧
    (callWithRetry pol2 (fnOf [failZero] true) jit0).outcome = RunOutcome.ok true ∧
    effStatus failZero = some 0 :=
  ⟨rfl, rfl, rfl⟩

/-- C2 (amended): for every failure whose status is present and *nonzero*
and neither `429` nor in `[500,599]`, `callWithRetry` propagates the
enriched error on attempt 1, performing no retry and sleeping for no wait
at all (the waits list is empty). -/
theorem callWithRetry_nonretryable_fails_fast {α : Type} (pol : RetryPolicy)
    (fn : Nat → Outcome α) (jit : Nat → ℚ) (e : FailInfo) (s : Nat)
    (hmax : 1 ≤ pol.maxAttempts) (hfn : fn 1 = Outcome.failure e)
    (hs : effStatus e = some s) (h0 : s ≠ 0) (h429 : s ≠ 429)
    (h5xx : ¬(500 ≤ s ∧ s < 600)) :
    callWithRetry pol fn jit = ⟨1, [], RunOutcome.err (enrich 1 e)⟩ := by
  obtain ⟨m, hm⟩ : ∃ m, pol.maxAttempts = m + 1 := ⟨pol.maxAttempts - 1, by omega⟩
  have hsr : jsShouldRetry (effStatus e) = false := by
    rw [hs]
    simp only [jsShouldRetry, Bool.or_eq_false_iff, Bool.and_eq_false_iff]
    refine ⟨⟨by simpa using h0, by simpa using h429⟩, ?_⟩
    rcases Nat.lt_or_ge s 600 with h | h
    · left; simpa using fun hc => (h5xx ⟨hc, h⟩)
    · right; simpa using h
  rw [callWithRetry, hm]
  simp [callWithRetryAux, hfn, hsr]

def fail404 : FailInfo :=
  ⟨("Request failed with status code 404").data,
   some ⟨some 404, noHeaders, some (Json.str (("not found").data))⟩, none⟩

/-- C2 witness: a concrete 404 failure on the first attempt propagates at
once with no wait. -/
theorem callWithRetry_nonretryable_fails_fast_witness :
    callWithRetry pol2 (fnOf [fail404] true) jit0 =
      ⟨1, [], RunOutcome.err (enrich 1 fail404)⟩ :=
  callWithRetry_nonretryable_fails_fast pol2 (fnOf [fail404] true) jit0 fail404 404
    (by decide) rfl rfl (by decide) (by decide) (by decide)

def bodyJson : Json := Json.str (("upstream body").data)

def fail500h : FailInfo :=
  ⟨("Request failed with status code 500").data,
   some ⟨some 500, ⟨RetryAfterHeader.numeric 3⟩, some bodyJson⟩, none⟩

def pol1 : RetryPolicy := ⟨1, 1000, 30000⟩

/-- C5 (counterexample): the claim asserts every error surfaced by
`callWithRetry` carries the upstream headers; the primary source attaches
only `original`, `status` and `responseBody` to the enriched error, so a
final failure that did carry headers (here a `Retry-After` header)
surfaces with `headers` equal to JavaScript `undefined` (`none`). -/
theorem callWithRetry_enriched_drops_headers :
    callWithRetry pol1 (fnOf [fail500h] true) jit0 =
      ⟨1, [], RunOutcome.err (enrich 1 fail500h)⟩ ∧
    (enrich 1 fail500h).headers = none ∧
    (effHeaders fail500h).retryAfter = RetryAfterHeader.numeric 3 ∧
    (enrich 1 fail500h).responseBody = some bodyJson :=
  ⟨rfl, rfl, rfl, rfl⟩

/-- Every error outcome of the attempt loop is the enrichment of the
failure thrown on its final executed attempt. -/
theorem callWithRetryAux_err {α : Type} (pol : RetryPolicy) (fn : Nat → Outcome α)
    (jit : Nat → ℚ) :
    ∀ (rem attempt : Nat) (en : EnrichedError),
      (callWithRetryAux pol fn jit attempt rem).outcome = RunOutcome.err en →
      ∃ e, fn en.attempt = Outcome.failure e ∧ en = enrich en.attempt e ∧
        en.attempt + 1 = attempt + (callWithRetryAux pol fn jit attempt rem).attemptsUsed := by
  intro rem
  induction rem with
  | zero =>
    intro attempt en h
    simp [callWithRetryAux] at h
  | succ r ih =>
    intro attempt en h
    cases hfn : fn attempt with
    | success v =>
      rw [callWithRetryAux, hfn] at h
      simp at h
    | failure e =>
      rw [callWithRetryAux, hfn] at h
      dsimp only at h
      by_cases hc : (jsShouldRetry (effStatus e) && (r != 0)) = true
      · rw [if_pos hc] at h
        dsimp only at h
        obtain ⟨e2, h1, h2, h3⟩ := ih (attempt + 1) en h
        refine ⟨e2, h1, h2, ?_⟩
        rw [callWithRetryAux, hfn]
        dsimp only
        rw [if_pos hc]
        dsimp only
        omega
      · rw [if_neg hc] at h
        dsimp only at h
        have hen : enrich attempt e = en := RunOutcome.err.inj h
        refine ⟨e, ?_, ?_, ?_⟩
        · rw [← hen]; simpa [enrich] using hfn
        · rw [← hen]; rfl
        · rw [callWithRetryAux, hfn]
          dsimp only
          rw [if_neg hc, ← hen]
          simp [enrich]

/-- C5 (amended): every error surfaced by `callWithRetry` carries the
attempt count (in the message and equal to the number of attempts
executed), the upstream status, the upstream response body, and the
original cause of its final failure — but *not* the upstream headers,
which the primary variant leaves unset. -/
theorem callWithRetry_error_enrichment {α : Type} (pol : RetryPolicy)
    (fn : Nat → Outcome α) (jit : Nat → ℚ) (en : EnrichedError)
    (h : (callWithRetry pol fn jit).outcome = RunOutcome.err en) :
    ∃ e, fn en.attempt = Outcome.failure e ∧ en.origMessage = e.message ∧
      en.status = effStatus e ∧ en.responseBody = effBody e ∧ en.original = e ∧
      en.headers = none ∧ en.attempt = (callWithRetry pol fn jit).attemptsUsed := by
  obtain ⟨e, h1, h2, h3⟩ := callWithRetryAux_err pol fn jit pol.maxAttempts 1 en h
  refine ⟨e, h1, ?_, ?_, ?_, ?_, ?_, ?_⟩
  · rw [h2]; rfl
  · rw [h2]; rfl
  · rw [h2]; rfl
  · rw [h2]; rfl
  · rw [h2]; rfl
  · simp only [callWithRetry]
    omega

/-- C5 witness: the enrichment guarantee instantiated on the concrete
one-attempt 500 failure. -/
theorem callWithRetry_error_enrichment_witness :
    ∃ e, (fnOf [fail500h] true) (enrich 1 fail500h).attempt = Outcome.failure e ∧
      (enrich 1 fail500h).origMessage = e.message ∧
      (enrich 1 fail500h).status = effStatus e ∧
      (enrich 1 fail500h).responseBody = effBody e ∧
      (enrich 1 fail500h).original = e ∧
      (enrich 1 fail500h).headers = none ∧
      (enrich 1 fail500h).attempt =
        (callWithRetry pol1 (fnOf [fail500h] true) jit0).attemptsUsed :=
  callWithRetry_error_enrichment pol1 (fnOf [fail500h] true) jit0 (enrich 1 fail500h) rfl

/-- A run whose first `k` calls fail retryably and whose call `k + 1`
succeeds (with `k` strictly below the remaining iteration budget) ends in
that success after exactly `k + 1` calls. -/
theorem callWithRetryAux_ok_of_prefix {α : Type} (pol : RetryPolicy)
    (fn : Nat → Outcome α) (jit : Nat → ℚ) (v : α) :
    ∀ (k rem attempt : Nat), k < rem →
      (∀ i, i < k → ∃ e, fn (attempt + i) = Outcome.failure e ∧
        jsShouldRetry (effStatus e) = true) →
      fn (attempt + k) = Outcome.success v →
      (callWithRetryAux pol fn jit attempt rem).outcome = RunOutcome.ok v ∧
      (callWithRetryAux pol fn jit attempt rem).attemptsUsed = k + 1 := by
  intro k
  induction k with
  | zero =>
    intro rem attempt hk hfails hsucc
    obtain ⟨r, hr⟩ : ∃ r, rem = r + 1 := ⟨rem - 1, by omega⟩
    subst hr
    rw [Nat.add_zero] at hsucc
    rw [callWithRetryAux, hsucc]
    exact ⟨rfl, rfl⟩
  | succ k ih =>
    intro rem attempt hk hfails hsucc
    obtain ⟨r, hr⟩ : ∃ r, rem = r + 1 := ⟨rem - 1, by omega⟩
    subst hr
    obtain ⟨e, hfe, hre⟩ := hfails 0 (by omega)
    rw [Nat.add_zero] at hfe
    have hr0 : (r != 0) = true := by
      simp only [bne_iff_ne, ne_eq]
      omega
    have hcond : (jsShouldRetry (effStatus e) && (r != 0)) = true := by
      rw [hre, hr0]; rfl
    have hrec := ih r (attempt + 1) (by omega)
      (fun i hi => by
        obtain ⟨e2, h1, h2⟩ := hfails (i + 1) (by omega)
        refine ⟨e2, ?_, h2⟩
        rw [show attempt + 1 + i = attempt + (i + 1) from by omega]
        exact h1)
      (by
        rw [show attempt + 1 + k = attempt + (k + 1) from by omega]
        exact hsucc)
    rw [callWithRetryAux, hfe]
    dsimp only
    rw [if_pos hcond]
    dsimp only
    exact ⟨hrec.1, by rw [hrec.2]⟩

/-- C1 (confirmed): for every sequence of retryable failures (status 429,
status in `[500,599]`, or missing status) strictly shorter than
`maxAttempts`, followed by a successful call, `callWithRetry` returns
that call's success result and executes exactly `failures + 1`
attempts. -/
theorem callWithRetry_retryable_prefix {α : Type} (pol : RetryPolicy) (jit : Nat → ℚ)
    (fails : List FailInfo) (v : α)
    (hlen : fails.length < pol.maxAttempts)
    (hretry : ∀ e ∈ fails, jsShouldRetry (effStatus e) = true) :
    (callWithRetry pol (fnOf fails v) jit).outcome = RunOutcome.ok v ∧
    (callWithRetry pol (fnOf fails v) jit).attemptsUsed = fails.length + 1 := by
  rw [callWithRetry]
  apply callWithRetryAux_ok_of_prefix pol (fnOf fails v) jit v fails.length
    pol.maxAttempts 1 hlen
  · intro i hi
    cases hg : fails.get? i with
    | none =>
      rw [List.get?_eq_none] at hg
      omega
    | some e =>
      refine ⟨e, ?_, hretry e (List.get?_mem hg)⟩
      show fnOf fails v (1 + i) = _
      rw [fnOf, show 1 + i - 1 = i from by omega, hg]
  · show fnOf fails v (1 + fails.length) = _
    rw [fnOf, show 1 + fails.length - 1 = fails.length from by omega,
      List.get?_eq_none.mpr (le_refl _)]

def fail429 : FailInfo :=
  ⟨("Request failed with status code 429").data, some ⟨some 429, noHeaders, none⟩, none⟩

def failNet : FailInfo := ⟨("socket hang up").data, none, none⟩

def pol5 : RetryPolicy := ⟨5, 1000, 30000⟩

/-- C1 witness: a 429 failure then a network failure then success, under
`maxAttempts = 5`, succeeds with exactly three attempts executed. -/
theorem callWithRetry_retryable_prefix_witness :
    (callWithRetry pol5 (fnOf [fail429, failNet] (some (Json.str xText))) jit0).outcome
        = RunOutcome.ok (some (Json.str xText)) ∧
    (callWithRetry pol5 (fnOf [fail429, failNet] (some (Json.str xText))) jit0).attemptsUsed
        = 3 :=
  callWithRetry_retryable_prefix pol5 jit0 [fail429, failNet] (some (Json.str xText))
    (by decide) (by decide)

/-- A `Retry-After` header value that is valid per the HTTP grammar:
absent/unparsable headers are vacuously fine, dates always are, and
numeric delay-seconds must be non-negative. -/
def retryAfterNonneg : RetryAfterHeader → Bool
  | RetryAfterHeader.numeric s => decide (0 ≤ s)
  | _ => true

/-- The computed wait never exceeds `maxDelayMs`. -/
theorem computeWait_le (pol : RetryPolicy) (attempt : Nat) (j : ℚ)
    (h : RetryAfterHeader) (hj1 : j < 1) :
    computeWait pol attempt j h ≤ (pol.maxDelayMs : Int) := by
  cases hp : parseRetryAfter h with
  | some w =>
    simp only [computeWait, hp]
    exact min_le_right _ _
  | none =>
    simp only [computeWait, hp]
    set cap : Nat := min pol.maxDelayMs (pol.baseDelayMs * 2 ^ (attempt - 1)) with hcap
    have h1 : j * (cap : ℚ) ≤ ((cap : Nat) : ℚ) := by
      calc j * (cap : ℚ) ≤ 1 * (cap : ℚ) :=
            mul_le_mul_of_nonneg_right (le_of_lt hj1) (by positivity)
        _ = (cap : ℚ) := one_mul _
    have h2 : Int.floor (j * (cap : ℚ)) ≤ Int.floor ((cap : Nat) : ℚ) :=
      Int.floor_le_floor h1
    rw [Int.floor_natCast] at h2
    have h3 : ((cap : Nat) : Int) ≤ (pol.maxDelayMs : Int) := by
      have := Nat.min_le_left pol.maxDelayMs (pol.baseDelayMs * 2 ^ (attempt - 1))
      rw [hcap]
      exact_mod_cast this
    exact le_trans h2 h3

/-- With a non-negative jitter draw and a valid header, the computed wait
is non-negative. -/
theorem computeWait_nonneg (pol : RetryPolicy) (attempt : Nat) (j : ℚ)
    (h : RetryAfterHeader) (hj0 : 0 ≤ j) (hnn : retryAfterNonneg h = true) :
    0 ≤ computeWait pol attempt j h := by
  cases h with
  | numeric s =>
    simp only [retryAfterNonneg, decide_eq_true_eq] at hnn
    simp only [computeWait, parseRetryAfter]
    refine le_min ?_ ?_
    · omega
    · exact_mod_cast Nat.zero_le _
  | httpDate d =>
    simp only [computeWait, parseRetryAfter]
    refine le_min (le_max_left _ _) ?_
    exact_mod_cast Nat.zero_le _
  | missing =>
    simp only [computeWait, parseRetryAfter]
    exact Int.le_floor.mpr (by positivity)
  | unparsable =>
    simp only [computeWait, parseRetryAfter]
    exact Int.le_floor.mpr (by positivity)

/-- Every wait slept by the attempt loop stays within the bounds, provided
the jitter draws lie in `[0,1)` and every thrown failure carries a valid
(or no) `Retry-After` header. -/
theorem callWithRetryAux_waits {α : Type} (pol : RetryPolicy) (fn : Nat → Outcome α)
    (jit : Nat → ℚ) (hj : ∀ n, 0 ≤ jit n ∧ jit n < 1)
    (hh : ∀ n e, fn n = Outcome.failure e →
      retryAfterNonneg (effHeaders e).retryAfter = true) :
    ∀ (rem attempt : Nat), ∀ w ∈ (callWithRetryAux pol fn jit attempt rem).waits,
      0 ≤ w ∧ w ≤ (pol.maxDelayMs : Int) := by
  intro rem
  induction rem with
  | zero =>
    intro attempt w hw
    simp [callWithRetryAux] at hw
  | succ r ih =>
    intro attempt w hw
    cases hfn : fn attempt with
    | success v =>
      rw [callWithRetryAux, hfn] at hw
      simp at hw
    | failure e =>
      rw [callWithRetryAux, hfn] at hw
      dsimp only at hw
      by_cases hc : (jsShouldRetry (effStatus e) && (r != 0)) = true
      · rw [if_pos hc] at hw
        dsimp only at hw
        rcases List.mem_cons.mp hw with h | h
        · subst h
          exact ⟨computeWait_nonneg pol attempt (jit attempt) _ (hj attempt).1
              (hh attempt e hfn),
            computeWait_le pol attempt (jit attempt) _ (hj attempt).2⟩
        · exact ih (attempt + 1) w h
      · rw [if_neg hc] at hw
        simp at hw

/-- Every wait slept by the attempt loop is bounded above by
`maxDelayMs`, with no assumption on the headers. -/
theorem callWithRetryAux_waits_le {α : Type} (pol : RetryPolicy) (fn : Nat → Outcome α)
    (jit : Nat → ℚ) (hj : ∀ n, jit n < 1) :
    ∀ (rem attempt : Nat), ∀ w ∈ (callWithRetryAux pol fn jit attempt rem).waits,
      w ≤ (pol.maxDelayMs : Int) := by
  intro rem
  induction rem with
  | zero =>
    intro attempt w hw
    simp [callWithRetryAux] at hw
  | succ r ih =>
    intro attempt w hw
    cases hfn : fn attempt with
    | success v =>
      rw [callWithRetryAux, hfn] at hw
      simp at hw
    | failure e =>
      rw [callWithRetryAux, hfn] at hw
      dsimp only at hw
      by_cases hc : (jsShouldRetry (effStatus e) && (r != 0)) = true
      · rw [if_pos hc] at hw
        dsimp only at hw
        rcases List.mem_cons.mp hw with h | h
        · subst h
          exact computeWait_le pol attempt (jit attempt) _ (hj attempt)
        · exact ih (attempt + 1) w h
      · rw [if_neg hc] at hw
        simp at hw

/-- C3 (amended): every wait `callWithRetry` schedules is at most
`maxDelayMs`, and lies in `[0, maxDelayMs]` whenever the `Retry-After`
values seen are valid (non-negative seconds, a date, or absent) — a
*negative* numeric `Retry-After` produces a negative computed wait, as the
source applies `Math.min` but no lower clamp to the parsed header.  When
the header is a valid integer-seconds or HTTP-date value the wait equals
that remaining time in milliseconds clamped to `[0, maxDelayMs]`,
independently of the jitter draw. -/
theorem callWithRetry_wait_bounds :
    (∀ {α : Type} (pol : RetryPolicy) (fn : Nat → Outcome α) (jit : Nat → ℚ),
      (∀ n, 0 ≤ jit n ∧ jit n < 1) →
      (∀ n e, fn n = Outcome.failure e →
        retryAfterNonneg (effHeaders e).retryAfter = true) →
      ∀ w ∈ (callWithRetry pol fn jit).waits, 0 ≤ w ∧ w ≤ (pol.maxDelayMs : Int)) ∧
    (∀ {α : Type} (pol : RetryPolicy) (fn : Nat → Outcome α) (jit : Nat → ℚ),
      (∀ n, jit n < 1) →
      ∀ w ∈ (callWithRetry pol fn jit).waits, w ≤ (pol.maxDelayMs : Int)) ∧
    (∀ (pol : RetryPolicy) (attempt : Nat) (j : ℚ) (s : Int), 0 ≤ s →
      computeWait pol attempt j (RetryAfterHeader.numeric s) =
        max 0 (min (s * 1000) (pol.maxDelayMs : Int))) ∧
    (∀ (pol : RetryPolicy) (attempt : Nat) (j : ℚ) (d : Int),
      computeWait pol attempt j (RetryAfterHeader.httpDate d) =
        max 0 (min d (pol.maxDelayMs : Int))) := by
  refine ⟨?_, ?_, ?_, ?_⟩
  · intro α pol fn jit hj hh w hw
    exact callWithRetryAux_waits pol fn jit hj hh pol.maxAttempts 1 w hw
  · intro α pol fn jit hj w hw
    refine callWithRetryAux_waits_le pol fn jit hj pol.maxAttempts 1 w hw
  · intro pol attempt j s hs
    simp only [computeWait, parseRetryAfter]
    have h0 : (0 : Int) ≤ (pol.maxDelayMs : Int) := by exact_mod_cast Nat.zero_le _
    omega
  · intro pol attempt j d
    simp only [computeWait, parseRetryAfter]
    have h0 : (0 : Int) ≤ (pol.maxDelayMs : Int) := by exact_mod_cast Nat.zero_le _
    omega

def fail429ra : FailInfo :=
  ⟨("Request failed with status code 429").data,
   some ⟨some 429, ⟨RetryAfterHeader.numeric 3⟩, none⟩, none⟩

def fn3w : Nat → Outcome Bool :=
  fun n => if n = 1 then Outcome.failure fail429ra else Outcome.success true

/-- C3 witness: a run whose single retry honours a `Retry-After: 3`
header schedules the wait `3000`, which the theorem places in
`[0, maxDelayMs]`. -/
theorem callWithRetry_wait_bounds_witness :
    0 ≤ (3000 : Int) ∧ (3000 : Int) ≤ (pol5.maxDelayMs : Int) :=
  callWithRetry_wait_bounds.1 pol5 fn3w jit0
    (fun _ => ⟨le_refl 0, by norm_num [jit0]⟩)
    (by
      intro n e h
      simp only [fn3w] at h
      by_cases hn : n = 1
      · rw [if_pos hn] at h
        injection h with h2
        rw [← h2]
        rfl
      · rw [if_neg hn] at h
        exact absurd h (by simp))
    3000 (by decide)

def fail429neg : FailInfo :=
  ⟨("Request failed with status code 429 with negative retry header").data,
   some ⟨some 429, ⟨RetryAfterHeader.numeric (-5)⟩, none⟩, none⟩

/-- C3 (counterexample): a `Retry-After` header whose text parses as the
number `-5` (accepted by `Number(header)`) makes the scheduled wait
`-5000` milliseconds — outside the claimed `[0, maxDelayMs]` range, since
the source clamps the parsed header only from above. -/
theorem callWithRetry_negative_retryAfter_wait :
    (callWithRetry pol5 (fnOf [fail429neg] true) jit0).waits = [(-5000 : Int)] ∧
    (-5000 : Int) < 0 :=
  ⟨rfl, by decide⟩

/-- C8 (amended): when both the direct parse and the brace-substring
parse fail (or no brace substring exists), the recovery step raises an
error carrying the original text and the *direct* parse failure message;
the substring failure message is discarded, and no fallback object is
fabricated. -/
theorem jsRecover_failure_error (t m1 : List Char)
    (h1 : jsonParse (recoverClean t) = Except.error m1)
    (h2 : braceSubstring (recoverClean t) = none ∨
      ∃ m m2, braceSubstring (recoverClean t) = some m ∧ jsonParse m = Except.error m2) :
    jsRecover t = Except.error ⟨t, m1⟩ := by
  simp only [jsRecover]
  rw [h1]
  dsimp only
  rcases h2 with h2 | ⟨m, m2, hbs, hpm⟩
  · rw [h2]
  · rw [hbs]
    dsimp only
    rw [hpm]

def badText : List Char := ("oops \x7bbad\x7d").data

def braceT : List Char := ("\x7bbad\x7d").data

def msgO : List Char := msgUnexpectedToken ++ ['o']

def msgB : List Char := msgUnexpectedToken ++ ['b']

/-- C8 (counterexample): the claim asserts the raised error carries
*both* underlying parse error messages; on this text both parses fail
with distinct messages, yet the raised error's only message field is the
direct-parse message — the brace-substring message is nowhere in the
error, whose full data is the pair `(raw, parseError)`. -/
theorem jsRecover_single_message :
    jsRecover badText = Except.error ⟨badText, msgO⟩ ∧
    jsonParse (recoverClean badText) = Except.error msgO ∧
    braceSubstring (recoverClean badText) = some braceT ∧
    jsonParse braceT = Except.error msgB ∧
    msgO ≠ msgB :=
  ⟨rfl, rfl, rfl, rfl, by decide⟩

def noJsonText : List Char := ("Sorry, I cannot comply").data

def msgS : List Char := msgUnexpectedToken ++ ['S']

/-- C8 witness: on a reply with no recoverable JSON at all, the recovery
step surfaces the error with the original text and the direct-parse
message. -/
theorem jsRecover_failure_error_witness :
    jsRecover noJsonText = Except.error ⟨noJsonText, msgS⟩ :=
  jsRecover_failure_error noJsonText msgS rfl (Or.inl rfl)

/-- A successful recovery is the result of a successful JSON parse of the
cleaned text or of its brace substring. -/
theorem jsRecover_ok (t : List Char) (v : Json) (h : jsRecover t = Except.ok v) :
    jsonParse (recoverClean t) = Except.ok v ∨
    ∃ m, braceSubstring (recoverClean t) = some m ∧ jsonParse m = Except.ok v := by
  simp only [jsRecover] at h
  cases hp : jsonParse (recoverClean t) with
  | ok w =>
    rw [hp] at h
    dsimp only at h
    left
    exact congrArg Except.ok (Except.ok.inj h)
  | error m1 =>
    rw [hp] at h
    dsimp only at h
    cases hbs : braceSubstring (recoverClean t) with
    | none =>
      rw [hbs] at h
      simp at h
    | some m =>
      rw [hbs] at h
      dsimp only at h
      cases hpm : jsonParse m with
      | ok w =>
        rw [hpm] at h
        dsimp only at h
        right
        exact ⟨m, rfl, by rw [hpm]; exact congrArg Except.ok (Except.ok.inj h)⟩
      | error m2 =>
        rw [hpm] at h
        simp at h

/-- A success of the output-processing tail always wraps a payload
obtained from `jsRecover` on the extracted text, which is also the
returned `raw`. -/
theorem processModelOutput_ok (data : Option Json) (r : AISuccess)
    (h : processModelOutput data = Except.ok r) :
    jsRecover r.raw = Except.ok r.structuredJson := by
  rw [processModelOutput] at h
  cases he : extractTextFromResponseData data with
  | none =>
    rw [he] at h
    simp at h
  | some tv =>
    rw [he] at h
    dsimp only at h
    by_cases hemp : (jsTrim (jsStringCoerce tv)).isEmpty = true
    · rw [if_pos hemp] at h
      simp at h
    · rw [if_neg hemp] at h
      cases tv with
      | null => simp at h
      | bool b => simp at h
      | num q => simp at h
      | arr xs => simp at h
      | obj fs => simp at h
      | str s =>
        dsimp only at h
        cases hr : jsRecover s with
        | ok v =>
          rw [hr] at h
          dsimp only at h
          rw [← Except.ok.inj h]
          exact hr
        | error pe =>
          rw [hr] at h
          simp at h

/-- C4 (amended): `extractStructuredJSON` returns a structured payload
only if that payload was successfully parsed as JSON (directly, or from
the brace substring) out of the extracted text; no payload is fabricated
on failure.  The expected schema (`summary`/`key_pairs`/`confidence`) is
requested in the prompt but never validated on the parsed value. -/
theorem extractStructuredJSON_ok_parsed (ak : Bool) (run : RunResult (Option Json))
    (r : AISuccess) (h : extractStructuredJSON ak run = Except.ok r) :
    jsRecover r.raw = Except.ok r.structuredJson ∧
    (jsonParse (recoverClean r.raw) = Except.ok r.structuredJson ∨
      ∃ m, braceSubstring (recoverClean r.raw) = some m ∧
        jsonParse m = Except.ok r.structuredJson) := by
  simp only [extractStructuredJSON] at h
  cases ak with
  | false => simp at h
  | true =>
    rw [Bool.not_true, if_neg Bool.false_ne_true] at h
    cases ho : run.outcome with
    | ok data =>
      rw [ho] at h
      dsimp only at h
      have h1 := processModelOutput_ok data r h
      exact ⟨h1, jsRecover_ok r.raw r.structuredJson h1⟩
    | err en =>
      rw [ho] at h
      simp at h
    | undef =>
      rw [ho] at h
      dsimp only at h
      have h1 := processModelOutput_ok none r h
      exact ⟨h1, jsRecover_ok r.raw r.structuredJson h1⟩

def emptyObjText : List Char := ("\x7b\x7d").data

def respEmptyObj : Json :=
  Json.obj [(choicesKey, Json.arr [Json.obj
    [(messageKey, Json.obj [(contentKey, Json.str emptyObjText)])]])]

def run4 : RunResult (Option Json) := ⟨1, [], RunOutcome.ok (some respEmptyObj)⟩

/-- C4 (counterexample): a model reply whose content is the empty JSON
object parses successfully, and `extractStructuredJSON` returns it as the
structured payload even though it has no `summary`, `key_pairs` or
`confidence` at all — the expected shape is not enforced, contradicting
the claim that only shape-conforming payloads are returned. -/
theorem extractStructuredJSON_unvalidated :
    extractStructuredJSON true run4 = Except.ok ⟨Json.obj [], emptyObjText⟩ ∧
    specExpectedShape (Json.obj []) = false :=
  ⟨rfl, rfl⟩

def aKey : List Char := ("a").data

def simpleJsonText : List Char := ("\x7b\x22a\x22:\x22b\x22\x7d").data

def simpleVal : Json := Json.obj [(aKey, Json.str (("b").data))]

def respSimple : Json :=
  Json.obj [(choicesKey, Json.arr [Json.obj
    [(messageKey, Json.obj [(contentKey, Json.str simpleJsonText)])]])]

def run4w : RunResult (Option Json) := ⟨1, [], RunOutcome.ok (some respSimple)⟩

/-- C4 witness: a concrete successful extraction, whose payload the
theorem traces back to a successful JSON parse of the returned raw
text. -/
theorem extractStructuredJSON_ok_parsed_witness :
    jsRecover (AISuccess.mk simpleVal simpleJsonText).raw =
      Except.ok (AISuccess.mk simpleVal simpleJsonText).structuredJson ∧
    (jsonParse (recoverClean (AISuccess.mk simpleVal simpleJsonText).raw) =
        Except.ok (AISuccess.mk simpleVal simpleJsonText).structuredJson ∨
      ∃ m, braceSubstring (recoverClean (AISuccess.mk simpleVal simpleJsonText).raw) = some m ∧
        jsonParse m = Except.ok (AISuccess.mk simpleVal simpleJsonText).structuredJson) :=
  extractStructuredJSON_ok_parsed true run4w ⟨simpleVal, simpleJsonText⟩ rfl

/-- The three-backtick fence, as an explicit character list. -/
def fenceChars : List Char := btChar :: btChar :: btChar :: []

/-- An opening fence with the `json` language tag. -/
def fenceJsonChars : List Char := btChar :: btChar :: btChar :: 'j' :: 's' :: 'o' :: 'n' :: []

/-- Dropping while a predicate holds passes over a satisfying prefix and
stops at the first failing element, wherever it sits. -/
theorem dropWhile_append_middle (p : Char → Bool) (pre : List Char) (a : Char)
    (rest : List Char) (hA : p a = false) :
    List.dropWhile p (pre ++ a :: rest) = List.dropWhile p pre ++ a :: rest := by
  induction pre with
  | nil => simp [List.dropWhile_cons, hA]
  | cons c t ih =>
    by_cases hc : p c = true
    · simp only [List.cons_append, List.dropWhile_cons, hc, if_pos]
      exact ih
    · have hc' : p c = false := by simpa using hc
      simp [List.cons_append, List.dropWhile_cons, hc']

/-- Dropping while a predicate holds erases a list all of whose elements
satisfy it. -/
theorem dropWhile_eq_nil_of_all (p : Char → Bool) (l : List Char)
    (h : ∀ c ∈ l, p c = true) : List.dropWhile p l = [] := by
  induction l with
  | nil => rfl
  | cons c t ih =>
    simp only [List.dropWhile_cons, h c (by simp)]
    simp only [if_pos]
    exact ih fun d hd => h d (by simp [hd])

/-- The parser rejects any input whose first character is a backtick. -/
theorem pRun_needValue_btChar (fuel : Nat) (st : List PFrame) (rest : List Char) :
    pRun (fuel + 1) st (PState.needValue (btChar :: rest)) =
      Except.error (msgUnexpectedToken ++ [btChar]) := by
  rw [pRun]
  have h1 : skipWs (btChar :: rest) = btChar :: rest := by
    rw [skipWs, List.dropWhile_cons, if_neg]
    decide
  rw [h1]
  dsimp only
  rw [if_neg (by decide), if_neg (by decide), if_neg (by decide), if_neg (by decide),
    if_neg (by decide), if_neg (by decide), if_neg (by decide)]

/-- `JSON.parse` fails on any text beginning with a backtick. -/
theorem jsonParse_fenceHead (rest : List Char) :
    jsonParse (btChar :: rest) = Except.error (msgUnexpectedToken ++ [btChar]) := by
  rw [jsonParse]
  have hf : 4 * (btChar :: rest).length + 4 = (4 * (btChar :: rest).length + 3) + 1 := rfl
  rw [hf, pRun_needValue_btChar]

/-- A text passing the fence test starts with three backticks. -/
theorem fenceStart_shape (l : List Char) (h : fenceStart l = true) :
    ∃ rest, l = btChar :: btChar :: btChar :: rest := by
  match l with
  | [] => simp [fenceStart] at h
  | [a] => simp [fenceStart] at h
  | [a, b] => simp [fenceStart] at h
  | a :: b :: c :: rest =>
    simp only [fenceStart, Bool.and_eq_true, decide_eq_true_eq] at h
    obtain ⟨⟨ha, hb⟩, hc⟩ := h
    exact ⟨rest, by rw [ha, hb, hc]⟩

/-- C7 helper: a directly parsable (after trim) text is recovered with
the same value. -/
theorem jsRecover_raw (t : List Char) (v : Json)
    (h : jsonParse (jsTrim t) = Except.ok v) : jsRecover t = Except.ok v := by
  simp only [jsRecover, recoverClean]
  by_cases hf : fenceStart (jsTrim t) = true
  · obtain ⟨rest, hrest⟩ := fenceStart_shape _ hf
    rw [hrest, jsonParse_fenceHead] at h
    exact absurd h (by simp)
  · rw [if_neg hf, h]

/-- Stripping the fence of a fenced text yields exactly the inner text. -/
theorem stripFence_wrap (s : List Char) :
    stripFence (fenceJsonChars ++ (s ++ fenceChars)) = s := by
  simp only [stripFence, fenceJsonChars, fenceChars, List.cons_append, List.nil_append,
    List.drop_succ_cons, List.drop_zero]
  have htag : jsonTagPrefix ('j' :: 's' :: 'o' :: 'n' ::
      (s ++ (btChar :: btChar :: btChar :: []))) = true := by
    simp only [jsonTagPrefix, List.take_succ_cons, List.take_zero, List.map_cons,
      List.map_nil]
    rfl
  rw [htag]
  simp only [if_true, List.drop_succ_cons, List.drop_zero]
  have hend : fenceEnd (s ++ (btChar :: btChar :: btChar :: [])) = true := by
    rw [fenceEnd]
    have e : (s ++ (btChar :: btChar :: btChar :: [])).reverse
        = btChar :: btChar :: btChar :: s.reverse := by
      simp
    rw [e]
    rfl
  rw [hend]
  simp only [if_true, List.length_append, List.length_cons, List.length_nil]
  have hl : s.length + (0 + 1 + 1 + 1) - 3 = s.length := by omega
  rw [hl]
  exact List.take_left s _

/-- C7 helper: JSON wrapped in a fenced code block with the `json` tag is
recovered with the same value. -/
theorem jsRecover_fenced (s : List Char) (v : Json) (h : jsonParse s = Except.ok v) :
    jsRecover (fenceJsonChars ++ (s ++ fenceChars)) = Except.ok v := by
  have econs : fenceJsonChars ++ (s ++ fenceChars)
      = btChar :: (btChar :: btChar :: 'j' :: 's' :: 'o' :: 'n' :: (s ++ fenceChars)) := by
    simp [fenceJsonChars]
  have htrim : jsTrim (fenceJsonChars ++ (s ++ fenceChars))
      = fenceJsonChars ++ (s ++ fenceChars) := by
    rw [jsTrim]
    have h1 : List.dropWhile isWs (fenceJsonChars ++ (s ++ fenceChars))
        = fenceJsonChars ++ (s ++ fenceChars) := by
      rw [econs, List.dropWhile_cons, if_neg (by decide)]
    rw [h1]
    have h2 : List.dropWhile isWs (fenceJsonChars ++ (s ++ fenceChars)).reverse
        = (fenceJsonChars ++ (s ++ fenceChars)).reverse := by
      have e : (fenceJsonChars ++ (s ++ fenceChars)).reverse
          = btChar :: (btChar :: btChar :: (s.reverse ++ fenceJsonChars.reverse)) := by
        simp [fenceChars]
      rw [e, List.dropWhile_cons, if_neg (by decide)]
    rw [h2, List.reverse_reverse]
  have hfs : fenceStart (fenceJsonChars ++ (s ++ fenceChars)) = true := by
    rw [econs]
    rfl
  simp only [jsRecover, recoverClean]
  rw [htrim, hfs]
  simp only [if_true]
  rw [stripFence_wrap, h]

/-- Trimming a text whose JSON object sits between commentary only trims
whitespace off the two commentary ends. -/
theorem jsTrim_decomp (pre mid post : List Char) :
    jsTrim (pre ++ (obChar :: (mid ++ [cbChar])) ++ post) =
      List.dropWhile isWs pre ++ (obChar :: (mid ++ [cbChar])) ++
        (List.dropWhile isWs post.reverse).reverse := by
  rw [jsTrim]
  have e1 : pre ++ (obChar :: (mid ++ [cbChar])) ++ post
      = pre ++ obChar :: (mid ++ [cbChar] ++ post) := by simp
  rw [e1, dropWhile_append_middle isWs pre obChar _ (by decide)]
  have e2 : (List.dropWhile isWs pre ++ obChar :: (mid ++ [cbChar] ++ post)).reverse
      = post.reverse ++ cbChar ::
          (mid.reverse ++ obChar :: (List.dropWhile isWs pre).reverse) := by
    simp [List.reverse_append]
  rw [e2, dropWhile_append_middle isWs post.reverse cbChar _ (by decide)]
  simp [List.reverse_append]

/-- The brace-substring of commentary-wrapped JSON (no `\x7b` in the
leading commentary, no `\x7d` in the trailing commentary) is exactly the
inner object text. -/
theorem braceSubstring_decomp (pre2 mid post2 : List Char)
    (hpre : ∀ c ∈ pre2, c ≠ obChar) (hpost : ∀ c ∈ post2, c ≠ cbChar) :
    braceSubstring (pre2 ++ (obChar :: (mid ++ [cbChar])) ++ post2)
      = some (obChar :: (mid ++ [cbChar])) := by
  rw [braceSubstring]
  have e1 : pre2 ++ (obChar :: (mid ++ [cbChar])) ++ post2
      = pre2 ++ obChar :: (mid ++ [cbChar] ++ post2) := by simp
  rw [e1]
  rw [dropWhile_append_middle _ pre2 obChar _ (by decide)]
  rw [dropWhile_eq_nil_of_all _ pre2 (fun c hc => by simpa using hpre c hc)]
  simp only [List.nil_append]
  have e2 : (obChar :: (mid ++ [cbChar] ++ post2)).reverse
      = post2.reverse ++ cbChar :: (mid.reverse ++ [obChar]) := by
    simp [List.reverse_append]
  rw [e2]
  rw [dropWhile_append_middle _ post2.reverse cbChar _ (by decide)]
  rw [dropWhile_eq_nil_of_all _ post2.reverse (fun c hc => by
    have hm : c ∈ post2 := List.mem_reverse.mp hc
    simpa using hpost c hm)]
  simp only [List.nil_append]
  have e3 : (cbChar :: (mid.reverse ++ [obChar])).reverse
      = obChar :: (mid ++ [cbChar]) := by
    simp
  rw [e3]
  simp

def rawPadText : List Char := ("  \x7b\x22a\x22:\x22b\x22\x7d  ").data
def fencedInner : List Char := ("\n\x7b\x22a\x22:\x22b\x22\x7d\n").data
def preC : List Char := ("Here is the JSON: ").data
def midC : List Char := ("\x22a\x22:\x22b\x22").data
def postC : List Char := (" as requested.").data

/-- Modelled from the spec: the inductive invariant of the queue model —
bounded concurrency, start-count agreement with the current fixed window,
the per-window cap, and FIFO bookkeeping. -/
def QInv (cfg : QueueConfig) (s : QState) : Prop :=
  s.running ≤ cfg.concurrency ∧
  (∀ t ∈ s.startTimes, t ≤ s.now) ∧
  s.startedInWindow = countInWindow cfg (s.now / cfg.intervalMs) s.startTimes ∧
  (∀ k, countInWindow cfg k s.startTimes ≤ cfg.intervalCap) ∧
  s.startedIds ++ s.pending = s.submitted

/-- The initial state satisfies the invariant. -/
theorem qInv_init (cfg : QueueConfig) : QInv cfg qInit := by
  refine ⟨Nat.zero_le _, ?_, ?_, ?_, rfl⟩
  · intro t ht
    simp [qInit] at ht
  · simp [qInit, countInWindow]
  · intro k
    simp [qInit, countInWindow]

/-- Every step of the queue preserves the invariant. -/
theorem qStep_inv (cfg : QueueConfig) (hIm : 0 < cfg.intervalMs) (s : QState)
    (a : QAction) (h : QInv cfg s) : QInv cfg (qStep cfg s a) := by
  obtain ⟨hrun, htimes, hwin, hcap, hfifo⟩ := h
  cases a with
  | submit id =>
    refine ⟨hrun, htimes, hwin, hcap, ?_⟩
    simp only [qStep]
    rw [← List.append_assoc, hfifo]
  | beginTask =>
    cases hp : s.pending with
    | nil =>
      simp only [qStep, hp]
      exact ⟨hrun, htimes, hwin, hcap, hfifo⟩
    | cons id rest =>
      simp only [qStep, hp]
      by_cases hc : s.running < cfg.concurrency ∧ s.startedInWindow < cfg.intervalCap
      · rw [if_pos hc]
        have h1 : s.now / cfg.intervalMs * cfg.intervalMs ≤ s.now :=
          Nat.div_mul_le_self _ _
        have h2 : s.now < (s.now / cfg.intervalMs + 1) * cfg.intervalMs := by
          have hm := Nat.mod_lt s.now hIm
          have hdm := Nat.div_add_mod s.now cfg.intervalMs
          calc s.now = cfg.intervalMs * (s.now / cfg.intervalMs) + s.now % cfg.intervalMs :=
                hdm.symm
            _ < cfg.intervalMs * (s.now / cfg.intervalMs) + cfg.intervalMs := by omega
            _ = (s.now / cfg.intervalMs + 1) * cfg.intervalMs := by ring
        have hcount : ∀ k, countInWindow cfg k (s.startTimes ++ [s.now]) =
            countInWindow cfg k s.startTimes +
              (if k = s.now / cfg.intervalMs then 1 else 0) := by
          intro k
          by_cases hk : k = s.now / cfg.intervalMs
          · subst hk
            simp [countInWindow, List.countP_append, List.countP_cons, h1, h2]
          · rcases Nat.lt_or_ge s.now (k * cfg.intervalMs) with hA | hA
            · simp [countInWindow, List.countP_append, List.countP_cons, hk,
                Nat.not_le.mpr hA]
            · have hB : ¬(s.now < (k + 1) * cfg.intervalMs) :=
                fun hB => hk (Nat.div_eq_of_lt_le hA hB).symm
              simp [countInWindow, List.countP_append, List.countP_cons, hk, hA, hB]
        rw [hp] at hfifo
        refine ⟨?_, ?_, ?_, ?_, ?_⟩ <;> dsimp only
        · omega
        · intro t ht
          rcases List.mem_append.mp ht with ht | ht
          · exact htimes t ht
          · simp at ht
            omega
        · rw [hcount, if_pos rfl, ← hwin]
        · intro k
          rw [hcount]
          by_cases hk : k = s.now / cfg.intervalMs
          · rw [if_pos hk, hk, ← hwin]
            omega
          · rw [if_neg hk]
            have := hcap k
            omega
        · simpa using hfifo
      · rw [if_neg hc]
        rw [hp] at hfifo
        exact ⟨hrun, htimes, hwin, hcap, by rw [hp]; exact hfifo⟩
  | complete =>
    simp only [qStep]
    by_cases hr : s.running = 0
    · rw [if_pos hr]
      exact ⟨hrun, htimes, hwin, hcap, hfifo⟩
    · rw [if_neg hr]
      exact ⟨by dsimp only; omega, htimes, hwin, hcap, hfifo⟩
  | tick =>
    simp only [qStep]
    by_cases hz : (s.now + 1) % cfg.intervalMs = 0
    · rw [if_pos hz]
      refine ⟨hrun, ?_, ?_, hcap, hfifo⟩
      · intro t ht
        dsimp only at ht ⊢
        have := htimes t ht
        omega
      · dsimp only
        symm
        rw [countInWindow, List.countP_eq_zero]
        intro t ht
        have hd : cfg.intervalMs ∣ s.now + 1 := Nat.dvd_iff_mod_eq_zero.mpr hz
        have he : (s.now + 1) / cfg.intervalMs * cfg.intervalMs = s.now + 1 :=
          Nat.div_mul_cancel hd
        have ht' := htimes t ht
        simp only [Bool.and_eq_true, decide_eq_true_eq, not_and]
        intro hA
        omega
    · rw [if_neg hz]
      have heq : (s.now + 1) / cfg.intervalMs = s.now / cfg.intervalMs := by
        rw [Nat.succ_div, if_neg (fun hd => hz (Nat.dvd_iff_mod_eq_zero.mp hd))]
        simp
      refine ⟨hrun, ?_, ?_, hcap, hfifo⟩
      · intro t ht
        dsimp only at ht ⊢
        have := htimes t ht
        omega
      · dsimp only
        rw [heq]
        exact hwin

/-- The invariant holds after any event sequence from any state
satisfying it. -/
theorem qInv_foldl (cfg : QueueConfig) (hIm : 0 < cfg.intervalMs) :
    ∀ (acts : List QAction) (s : QState), QInv cfg s →
      QInv cfg (acts.foldl (qStep cfg) s) := by
  intro acts
  induction acts with
  | nil => intro s h; exact h
  | cons a rest ih =>
    intro s h
    exact ih _ (qStep_inv cfg hIm s a h)

/-- C9 (amended, spec-modelled): over every event sequence, at no
reachable state do more than `concurrency` tasks run, no more than
`intervalCap` tasks start within any *fixed* (aligned) `intervalMs`
window, and admission is FIFO (the admitted ids followed by the pending
ids are exactly the submitted ids, in order).  The sliding-window version
of the claim fails, see the counterexample. -/
theorem qRun_admission_invariants (cfg : QueueConfig) (acts : List QAction)
    (hIm : 0 < cfg.intervalMs) :
    (qRun cfg acts).running ≤ cfg.concurrency ∧
    (∀ k, countInWindow cfg k (qRun cfg acts).startTimes ≤ cfg.intervalCap) ∧
    (qRun cfg acts).startedIds ++ (qRun cfg acts).pending = (qRun cfg acts).submitted := by
  have h := qInv_foldl cfg hIm acts qInit (qInv_init cfg)
  exact ⟨h.1, h.2.2.2.1, h.2.2.2.2⟩

def cfg9 : QueueConfig := ⟨2, 1, 2⟩

def acts9 : List QAction :=
  [QAction.submit 0, QAction.submit 1, QAction.tick, QAction.beginTask,
   QAction.tick, QAction.beginTask]

/-- C9 witness: the invariants instantiated on a concrete six-event
trace. -/
theorem qRun_admission_invariants_witness :
    (qRun cfg9 acts9).running ≤ cfg9.concurrency ∧
    countInWindow cfg9 0 (qRun cfg9 acts9).startTimes ≤ cfg9.intervalCap ∧
    (qRun cfg9 acts9).startedIds ++ (qRun cfg9 acts9).pending = (qRun cfg9 acts9).submitted :=
  have h := qRun_admission_invariants cfg9 acts9 (by decide)
  ⟨h.1, h.2.1 0, h.2.2⟩

/-- C9 (counterexample): with `intervalCap = 1` and `intervalMs = 2`, a
task admitted at time 1 (end of the first fixed window) and another at
time 2 (start of the second) put two starts inside the sliding window
`[1, 3)` of length `intervalMs` — more than `intervalCap`, refuting the
claim's "no more than `intervalCap` tasks start within *any* window of
`intervalMs` milliseconds". -/
theorem qRun_sliding_window_burst :
    countInSpan 1 cfg9.intervalMs (qRun cfg9 acts9).startTimes = 2 ∧
    cfg9.intervalCap < 2 :=
  ⟨rfl, by decide⟩

/-- A decimal digit never lower-cases to the letter of the `json` tag. -/
theorem toLower_ne_j_of_digit (c : Char) (hd : c.isDigit = true) :
    Char.toLower c ≠ 'j' := by
  have hn : 48 ≤ c.toNat ∧ c.toNat ≤ 57 := by
    simp only [Char.isDigit, Bool.and_eq_true, decide_eq_true_eq] at hd
    exact hd
  intro he
  rw [Char.toLower, if_neg (by omega)] at he
  have h106 : c.toNat = 106 := by rw [he]; rfl
  omega

/-- The head surviving a `dropWhile` fails the predicate. -/
theorem dropWhile_head_false (p : Char → Bool) :
    ∀ (l : List Char) (c : Char) (t : List Char), l.dropWhile p = c :: t → p c = false := by
  intro l
  induction l with
  | nil =>
    intro c t h
    simp [List.dropWhile] at h
  | cons a l ih =>
    intro c t h
    by_cases ha : p a = true
    · rw [List.dropWhile_cons, if_pos ha] at h
      exact ih c t h
    · rw [List.dropWhile_cons, if_neg ha] at h
      injection h with h1 _
      rw [← h1]
      simpa using ha

/-- A successful parse step dispatches on one of the JSON value-start
characters. -/
theorem pRun_needValue_ok_head (fuel : Nat) (st : List PFrame) (l : List Char)
    (r : Json × List Char) (h : pRun (fuel + 1) st (PState.needValue l) = Except.ok r) :
    ∃ c rest, skipWs l = c :: rest ∧
      (c = obChar ∨ c = '[' ∨ c = '"' ∨ c = 't' ∨ c = 'f' ∨ c = 'n' ∨
        (c = '-' ∨ c.isDigit = true)) := by
  cases hs : skipWs l with
  | nil =>
    rw [pRun, hs] at h
    simp at h
  | cons c rest =>
    refine ⟨c, rest, rfl, ?_⟩
    by_contra hc
    push_neg at hc
    obtain ⟨h1, h2, h3, h4, h5, h6, h78⟩ := hc
    rw [pRun, hs] at h
    dsimp only at h
    rw [if_neg h1, if_neg h2, if_neg h3, if_neg h4, if_neg h5, if_neg h6,
      if_neg (by
        rintro (h7 | h8)
        · exact h78.1 h7
        · exact h78.2 h8)] at h
    simp at h

/-- A string accepted by `jsonParse` begins (after whitespace) with a
JSON value-start character. -/
theorem jsonParse_ok_dispatch (s : List Char) (v : Json)
    (h : jsonParse s = Except.ok v) :
    ∃ c rest, skipWs s = c :: rest ∧
      (c = obChar ∨ c = '[' ∨ c = '"' ∨ c = 't' ∨ c = 'f' ∨ c = 'n' ∨
        (c = '-' ∨ c.isDigit = true)) := by
  rw [jsonParse] at h
  have hf : 4 * s.length + 4 = (4 * s.length + 3) + 1 := rfl
  rw [hf] at h
  cases hp : pRun (4 * s.length + 3 + 1) [] (PState.needValue s) with
  | error m =>
    rw [hp] at h
    simp at h
  | ok r => exact pRun_needValue_ok_head _ _ _ _ hp

/-- A string accepted by `jsonParse` is non-empty and its very first
character never lower-cases to `j` — so it can never look like a `json`
language tag. -/
theorem jsonParse_ok_head_not_j (s : List Char) (v : Json)
    (h : jsonParse s = Except.ok v) :
    ∃ c0 s', s = c0 :: s' ∧ Char.toLower c0 ≠ 'j' := by
  obtain ⟨c, rest, hsk, hdisp⟩ := jsonParse_ok_dispatch s v h
  cases s with
  | nil =>
    rw [skipWs, List.dropWhile_nil] at hsk
    exact absurd hsk (by simp)
  | cons c0 s' =>
    refine ⟨c0, s', rfl, ?_⟩
    by_cases hws : isWs c0 = true
    · have hcases : ((c0 = ' ' ∨ c0 = '\t') ∨ c0 = '\n') ∨ c0 = '\r' := by
        simpa [isWs] using hws
      rcases hcases with ((h0 | h0) | h0) | h0 <;> rw [h0] <;> decide
    · have hsk2 : skipWs (c0 :: s') = c0 :: s' := by
        rw [skipWs, List.dropWhile_cons, if_neg hws]
      rw [hsk2] at hsk
      injection hsk with hc0 _
      rw [← hc0] at hdisp
      rcases hdisp with h0 | h0 | h0 | h0 | h0 | h0 | h0 | h0
      · rw [h0]; decide
      · rw [h0]; decide
      · rw [h0]; decide
      · rw [h0]; decide
      · rw [h0]; decide
      · rw [h0]; decide
      · rw [h0]; decide
      · exact toLower_ne_j_of_digit c0 h0

/-- A text whose first character does not lower-case to `j` fails the
`json` tag test. -/
theorem jsonTagPrefix_cons_false (a : Char) (l : List Char)
    (h : Char.toLower a ≠ 'j') : jsonTagPrefix (a :: l) = false := by
  simp only [jsonTagPrefix]
  apply decide_eq_false
  intro heq
  rw [List.take_succ_cons, List.map_cons,
    show jsonTagLower = 'j' :: 's' :: 'o' :: 'n' :: ([] : List Char) from rfl] at heq
  injection heq with h1 _
  exact h h1

/-- Stripping the fence of an untagged fenced text yields exactly the
inner text, provided the inner text does not itself begin like a `json`
language tag. -/
theorem stripFence_wrap_untagged (s : List Char)
    (htag : jsonTagPrefix (s ++ fenceChars) = false) :
    stripFence (fenceChars ++ (s ++ fenceChars)) = s := by
  have htag' : ¬ jsonTagPrefix (s ++ (btChar :: btChar :: btChar :: [])) = true := by
    rw [show (btChar :: btChar :: btChar :: ([] : List Char)) = fenceChars from rfl, htag]
    exact Bool.false_ne_true
  simp only [stripFence, fenceChars, List.cons_append, List.nil_append,
    List.drop_succ_cons, List.drop_zero]
  rw [if_neg htag']
  have hend : fenceEnd (s ++ (btChar :: btChar :: btChar :: [])) = true := by
    rw [fenceEnd]
    have e : (s ++ (btChar :: btChar :: btChar :: [])).reverse
        = btChar :: btChar :: btChar :: s.reverse := by
      simp
    rw [e]
    rfl
  rw [hend]
  simp only [if_true, List.length_append, List.length_cons, List.length_nil]
  have hl : s.length + (0 + 1 + 1 + 1) - 3 = s.length := by omega
  rw [hl]
  exact List.take_left s _

/-- C7 helper: JSON wrapped in a fenced code block without a language tag
is also recovered with the same value — a parsable inner text can never
be mistaken for a `json` tag. -/
theorem jsRecover_fenced_untagged (s : List Char) (v : Json)
    (h : jsonParse s = Except.ok v) :
    jsRecover (fenceChars ++ (s ++ fenceChars)) = Except.ok v := by
  obtain ⟨c0, s', hs0, hnotj⟩ := jsonParse_ok_head_not_j s v h
  have htag : jsonTagPrefix (s ++ fenceChars) = false := by
    rw [hs0]
    exact jsonTagPrefix_cons_false c0 _ hnotj
  have econs : fenceChars ++ (s ++ fenceChars)
      = btChar :: (btChar :: btChar :: (s ++ fenceChars)) := by
    simp [fenceChars]
  have htrim : jsTrim (fenceChars ++ (s ++ fenceChars))
      = fenceChars ++ (s ++ fenceChars) := by
    rw [jsTrim]
    have h1 : List.dropWhile isWs (fenceChars ++ (s ++ fenceChars))
        = fenceChars ++ (s ++ fenceChars) := by
      rw [econs, List.dropWhile_cons, if_neg (by decide)]
    rw [h1]
    have h2 : List.dropWhile isWs (fenceChars ++ (s ++ fenceChars)).reverse
        = (fenceChars ++ (s ++ fenceChars)).reverse := by
      have e : (fenceChars ++ (s ++ fenceChars)).reverse
          = btChar :: (btChar :: btChar :: (s.reverse ++ fenceChars.reverse)) := by
        simp [fenceChars]
      rw [e, List.dropWhile_cons, if_neg (by decide)]
    rw [h2, List.reverse_reverse]
  have hfs : fenceStart (fenceChars ++ (s ++ fenceChars)) = true := by
    rw [econs]
    rfl
  simp only [jsRecover, recoverClean]
  rw [htrim, hfs]
  simp only [if_true]
  rw [stripFence_wrap_untagged s htag, h]

/-- When a fence test passes on `A ++ c :: rest` with `c` not a backtick,
the three backticks all lie in `A`. -/
theorem fenceStart_append_shape (A : List Char) (c : Char) (rest : List Char)
    (hc : c ≠ btChar) (h : fenceStart (A ++ c :: rest) = true) :
    ∃ A2, A = btChar :: btChar :: btChar :: A2 := by
  obtain ⟨r, hr⟩ := fenceStart_shape _ h
  rcases A with _ | ⟨a1, _ | ⟨a2, _ | ⟨a3, A2⟩⟩⟩
  · rw [List.nil_append] at hr
    injection hr with h1 _
    exact absurd h1 hc
  · rw [List.cons_append, List.nil_append] at hr
    injection hr with _ hr2
    injection hr2 with h1 _
    exact absurd h1 hc
  · rw [List.cons_append, List.cons_append, List.nil_append] at hr
    injection hr with _ hr2
    injection hr2 with _ hr3
    injection hr3 with h1 _
    exact absurd h1 hc
  · rw [List.cons_append, List.cons_append, List.cons_append] at hr
    injection hr with ha1 hr2
    injection hr2 with ha2 hr3
    injection hr3 with ha3 _
    exact ⟨A2, by rw [ha1, ha2, ha3]⟩

/-- When the `json` tag test passes on `A ++ obChar :: rest`, the four
tag characters all lie in `A` (an opening brace can be none of them). -/
theorem jsonTag_append_shape (A : List Char) (rest : List Char)
    (h : jsonTagPrefix (A ++ obChar :: rest) = true) :
    ∃ e1 e2 e3 e4 A2, A = e1 :: e2 :: e3 :: e4 :: A2 := by
  have h' : (((A ++ obChar :: rest).take 4).map Char.toLower)
      = 'j' :: 's' :: 'o' :: 'n' :: ([] : List Char) := by
    have := of_decide_eq_true (by simpa only [jsonTagPrefix] using h)
    rw [show jsonTagLower = 'j' :: 's' :: 'o' :: 'n' :: ([] : List Char) from rfl] at this
    exact this
  rcases A with _ | ⟨e1, _ | ⟨e2, _ | ⟨e3, A2⟩⟩⟩
  · rw [List.nil_append, List.take_succ_cons, List.map_cons] at h'
    injection h' with h1 _
    exact absurd h1 (by decide)
  · rw [List.cons_append, List.nil_append, List.take_succ_cons, List.take_succ_cons,
      List.map_cons, List.map_cons] at h'
    injection h' with _ h2
    injection h2 with h1 _
    exact absurd h1 (by decide)
  · rw [List.cons_append, List.cons_append, List.nil_append, List.take_succ_cons,
      List.take_succ_cons, List.take_succ_cons, List.map_cons, List.map_cons,
      List.map_cons] at h'
    injection h' with _ h2
    injection h2 with _ h3
    injection h3 with h1 _
    exact absurd h1 (by decide)
  · rcases A2 with _ | ⟨e4, A3⟩
    · rw [List.cons_append, List.cons_append, List.cons_append, List.nil_append,
        List.take_succ_cons, List.take_succ_cons, List.take_succ_cons,
        List.take_succ_cons, List.map_cons, List.map_cons, List.map_cons,
        List.map_cons] at h'
      injection h' with _ h2
      injection h2 with _ h3
      injection h3 with _ h4
      injection h4 with h1 _
      exact absurd h1 (by decide)
    · exact ⟨e1, e2, e3, e4, A3, rfl⟩

/-- Dropping the 3-character closing fence from the right end of
`X ++ fence`. -/
theorem take_append_fence (X : List Char) :
    (X ++ fenceChars).take ((X ++ fenceChars).length - 3) = X := by
  have hl : (X ++ fenceChars).length - 3 = X.length := by
    simp [fenceChars]
  rw [hl]
  exact List.take_left X fenceChars

/-- The closing-fence strip of `stripFence` removes characters of the
trailing commentary only: the text keeps its bracketed core and the
remainder of the commentary. -/
theorem stripFence_end_decomp (A1 mid B0 : List Char)
    (hB0 : ∀ c ∈ B0, c ≠ cbChar) :
    ∃ B, (if fenceEnd (A1 ++ (obChar :: (mid ++ [cbChar])) ++ B0) then
            (A1 ++ (obChar :: (mid ++ [cbChar])) ++ B0).take
              ((A1 ++ (obChar :: (mid ++ [cbChar])) ++ B0).length - 3)
          else A1 ++ (obChar :: (mid ++ [cbChar])) ++ B0)
        = A1 ++ (obChar :: (mid ++ [cbChar])) ++ B ∧ (∀ c ∈ B, c ≠ cbChar) := by
  by_cases he : fenceEnd (A1 ++ (obChar :: (mid ++ [cbChar])) ++ B0) = true
  · rw [if_pos he]
    rw [fenceEnd] at he
    have hrev : (A1 ++ (obChar :: (mid ++ [cbChar])) ++ B0).reverse
        = B0.reverse ++ cbChar :: (mid.reverse ++ obChar :: A1.reverse) := by
      simp [List.reverse_append]
    rw [hrev] at he
    obtain ⟨B1, hB1⟩ := fenceStart_append_shape B0.reverse cbChar _ (by decide) he
    have hB0eq : B0 = B1.reverse ++ fenceChars := by
      have h2 := congrArg List.reverse hB1
      rw [List.reverse_reverse] at h2
      rw [h2]
      simp [fenceChars]
    refine ⟨B1.reverse, ?_, ?_⟩
    · have hX : A1 ++ (obChar :: (mid ++ [cbChar])) ++ B0
          = (A1 ++ (obChar :: (mid ++ [cbChar])) ++ B1.reverse) ++ fenceChars := by
        rw [hB0eq]
        simp
      rw [hX, take_append_fence]
    · intro c hc
      apply hB0 c
      rw [hB0eq]
      exact List.mem_append.mpr (Or.inl hc)
  · rw [if_neg he]
    exact ⟨B0, rfl, hB0⟩

/-- The cleaning step applied to commentary-wrapped JSON returns the same
bracketed core with (possibly shortened) commentary around it: trimming
and fence-stripping never touch the braces. -/
theorem recoverClean_commentary (pre mid post : List Char)
    (hpre : ∀ c ∈ pre, c ≠ obChar) (hpost : ∀ c ∈ post, c ≠ cbChar) :
    ∃ A B, recoverClean (pre ++ (obChar :: (mid ++ [cbChar])) ++ post) =
        A ++ (obChar :: (mid ++ [cbChar])) ++ B ∧
      (∀ c ∈ A, c ≠ obChar) ∧ (∀ c ∈ B, c ≠ cbChar) := by
  have htrim := jsTrim_decomp pre mid post
  have hpreA0 : ∀ c ∈ List.dropWhile isWs pre, c ≠ obChar :=
    fun c hc => hpre c ((List.dropWhile_sublist _).subset hc)
  have hpostB0 : ∀ c ∈ (List.dropWhile isWs post.reverse).reverse, c ≠ cbChar :=
    fun c hc => hpost c
      (List.mem_reverse.mp ((List.dropWhile_sublist _).subset (List.mem_reverse.mp hc)))
  simp only [recoverClean]
  rw [htrim]
  by_cases hf : fenceStart (List.dropWhile isWs pre ++ (obChar :: (mid ++ [cbChar])) ++
      (List.dropWhile isWs post.reverse).reverse) = true
  · rw [if_pos hf]
    have hf2 : fenceStart (List.dropWhile isWs pre ++ obChar ::
        (mid ++ [cbChar] ++ (List.dropWhile isWs post.reverse).reverse)) = true := by
      have e : List.dropWhile isWs pre ++ (obChar :: (mid ++ [cbChar])) ++
          (List.dropWhile isWs post.reverse).reverse
          = List.dropWhile isWs pre ++ obChar ::
            (mid ++ [cbChar] ++ (List.dropWhile isWs post.reverse).reverse) := by
        simp
      rw [← e]
      exact hf
    obtain ⟨A1, hA1⟩ := fenceStart_append_shape _ obChar _ (by decide) hf2
    have hpreA1 : ∀ c ∈ A1, c ≠ obChar := by
      intro c hc
      apply hpreA0 c
      rw [hA1]
      simp [hc]
    rw [hA1]
    simp only [stripFence]
    have hdrop3 : ((btChar :: btChar :: btChar :: A1) ++ (obChar :: (mid ++ [cbChar])) ++
        (List.dropWhile isWs post.reverse).reverse).drop 3
        = A1 ++ (obChar :: (mid ++ [cbChar])) ++
          (List.dropWhile isWs post.reverse).reverse := by
      simp
    rw [hdrop3]
    by_cases ht : jsonTagPrefix (A1 ++ (obChar :: (mid ++ [cbChar])) ++
        (List.dropWhile isWs post.reverse).reverse) = true
    · rw [if_pos ht]
      have ht2 : jsonTagPrefix (A1 ++ obChar ::
          (mid ++ [cbChar] ++ (List.dropWhile isWs post.reverse).reverse)) = true := by
        have e : A1 ++ (obChar :: (mid ++ [cbChar])) ++
            (List.dropWhile isWs post.reverse).reverse
            = A1 ++ obChar ::
              (mid ++ [cbChar] ++ (List.dropWhile isWs post.reverse).reverse) := by
          simp
        rw [← e]
        exact ht
      obtain ⟨e1, e2, e3, e4, A2, hA2⟩ := jsonTag_append_shape _ _ ht2
      have hpreA2 : ∀ c ∈ A2, c ≠ obChar := by
        intro c hc
        apply hpreA1 c
        rw [hA2]
        simp [hc]
      rw [hA2]
      have hdrop4 : ((e1 :: e2 :: e3 :: e4 :: A2) ++ (obChar :: (mid ++ [cbChar])) ++
          (List.dropWhile isWs post.reverse).reverse).drop 4
          = A2 ++ (obChar :: (mid ++ [cbChar])) ++
            (List.dropWhile isWs post.reverse).reverse := by
        simp
      rw [hdrop4]
      obtain ⟨B, hB, hBmem⟩ := stripFence_end_decomp A2 mid _ hpostB0
      exact ⟨A2, B, hB, hpreA2, hBmem⟩
    · rw [if_neg ht]
      obtain ⟨B, hB, hBmem⟩ := stripFence_end_decomp A1 mid _ hpostB0
      exact ⟨A1, B, hB, hpreA1, hBmem⟩
  · rw [if_neg hf]
    exact ⟨_, _, rfl, hpreA0, hpostB0⟩

/-- C7 helper: JSON surrounded by commentary (no stray braces in it) is
always recovered — via the brace substring when the direct parse of the
cleaned text fails, and directly otherwise. -/
theorem jsRecover_commentary (pre mid post : List Char) (v : Json)
    (hpre : ∀ c ∈ pre, c ≠ obChar) (hpost : ∀ c ∈ post, c ≠ cbChar)
    (hv : jsonParse (obChar :: (mid ++ [cbChar])) = Except.ok v) :
    ∃ w, jsRecover (pre ++ (obChar :: (mid ++ [cbChar])) ++ post) = Except.ok w := by
  obtain ⟨A, B, hclean, hA, hB⟩ := recoverClean_commentary pre mid post hpre hpost
  simp only [jsRecover]
  rw [hclean]
  cases hdp : jsonParse (A ++ (obChar :: (mid ++ [cbChar])) ++ B) with
  | ok w => exact ⟨w, rfl⟩
  | error m1 =>
    dsimp only
    rw [braceSubstring_decomp A mid B hA hB]
    dsimp only
    rw [hv]
    exact ⟨v, rfl⟩

/-- C7 (confirmed): the recovery step succeeds on raw JSON text, on JSON
wrapped in a fenced code block — with the `json` language tag or with no
tag at all — and on JSON preceded or followed by extraneous commentary,
the last via the first-`\x7b`-to-last-`\x7d` substring. -/
theorem jsRecover_three_forms :
    (∀ (t : List Char) (v : Json), jsonParse (jsTrim t) = Except.ok v →
      jsRecover t = Except.ok v) ∧
    (∀ (s : List Char) (v : Json), jsonParse s = Except.ok v →
      jsRecover (fenceJsonChars ++ (s ++ fenceChars)) = Except.ok v) ∧
    (∀ (s : List Char) (v : Json), jsonParse s = Except.ok v →
      jsRecover (fenceChars ++ (s ++ fenceChars)) = Except.ok v) ∧
    (∀ (pre mid post : List Char) (v : Json),
      (∀ c ∈ pre, c ≠ obChar) → (∀ c ∈ post, c ≠ cbChar) →
      jsonParse (obChar :: (mid ++ [cbChar])) = Except.ok v →
      ∃ w, jsRecover (pre ++ (obChar :: (mid ++ [cbChar])) ++ post) = Except.ok w) :=
  ⟨jsRecover_raw, jsRecover_fenced, jsRecover_fenced_untagged,
    fun pre mid post v h1 h2 h3 => jsRecover_commentary pre mid post v h1 h2 h3⟩

/-- C7 witness: the recovery forms at concrete texts — padded raw JSON,
tagged fenced JSON, untagged fenced JSON, and JSON inside commentary. -/
theorem jsRecover_three_forms_witness :
    jsRecover rawPadText = Except.ok simpleVal ∧
    jsRecover (fenceJsonChars ++ (fencedInner ++ fenceChars)) = Except.ok simpleVal ∧
    jsRecover (fenceChars ++ (fencedInner ++ fenceChars)) = Except.ok simpleVal ∧
    ∃ w, jsRecover (preC ++ (obChar :: (midC ++ [cbChar])) ++ postC) = Except.ok w :=
  ⟨jsRecover_three_forms.1 rawPadText simpleVal rfl,
   jsRecover_three_forms.2.1 fencedInner simpleVal rfl,
   jsRecover_three_forms.2.2.1 fencedInner simpleVal rfl,
   jsRecover_three_forms.2.2.2 preC midC postC simpleVal (by decide) (by decide) rfl⟩
